import Mathlib

/-!
Verification of the terra-eda-library conversion tools against their
natural-language specification.

The development shallowly embeds the relevant Python functions of
`tools/kicad_sym_to_db.py`, `tools/db_to_tables.py` and
`tools/migrate_to_tables.py` as executable Lean definitions and proves the
specification claims about them.  Python `str` values are modelled as `String`,
`None`-able values as `Option`, dictionaries as association lists in insertion
order, and raised exceptions as `Except.error`.
-/

namespace TerraEda

/-! ### Character and string primitives

Python string primitives (`str.isspace`, `str.lower`, `in`, `startswith`,
comparison) modelled for the ASCII range, as structurally recursive Bool-valued
functions so that every definition evaluates inside the kernel. -/

/-- The double-quote character. -/
def quoteChar : Char := Char.ofNat 34

/-- The backslash character. -/
def backslashChar : Char := Char.ofNat 92

/-- The single-quote character. -/
def squoteChar : Char := Char.ofNat 39

/-- Python `str.isspace` on the ASCII range: space, tab, newline, vertical
tab, form feed, carriage return. -/
def py_isspace (c : Char) : Bool :=
  c = ' ' || c = '\t' || c = '\n' || c = '\x0b' || c = '\x0c' || c = '\r'

/-- Python ASCII lower-casing of one character. -/
def py_char_lower (c : Char) : Char :=
  if 65 ≤ c.toNat && c.toNat ≤ 90 then Char.ofNat (c.toNat + 32) else c

/-- Python `str.lower` (ASCII range). -/
def py_lower (s : String) : String := String.mk (s.toList.map py_char_lower)

/-- Python `a.startswith(b)` at the character-list level. -/
def chars_isPrefix : List Char → List Char → Bool
  | [], _ => true
  | _ :: _, [] => false
  | a :: as, b :: bs => a == b && chars_isPrefix as bs

/-- Python `s.startswith(pre)`. -/
def py_startswith (s pre : String) : Bool := chars_isPrefix pre.toList s.toList

/-- Contiguous-substring test on character lists. -/
def chars_isInfix (needle : List Char) : List Char → Bool
  | [] => needle.isEmpty
  | c :: t => chars_isPrefix needle (c :: t) || chars_isInfix needle t

/-- Python substring containment `needle in hay`. -/
def py_in (needle hay : String) : Bool := chars_isInfix needle.toList hay.toList

/-- Strict lexicographic comparison of character lists (code-point order,
matching Python string comparison). -/
def chars_lt : List Char → List Char → Bool
  | [], [] => false
  | [], _ :: _ => true
  | _ :: _, [] => false
  | a :: as, b :: bs => a < b || (a == b && chars_lt as bs)

/-- Python `a <= b` on strings. -/
def py_str_le (a b : String) : Bool := !(chars_lt b.toList a.toList)

/-! ### The S-expression parser (`kicad_sym_to_db.py`, class `SExpressionParser`)

The Python parser returns plain `str` values for both quoted strings and
unquoted atoms, and Python lists for parenthesised lists; `SExp` mirrors this
two-variant shape.  The mutating `self.pos` cursor becomes explicit
state-passing: each parsing function consumes a `List Char` and returns the
unconsumed remainder. -/

/-- Result tree of the parser: a Python `str` (atom or quoted string) or a
Python `list`. -/
inductive SExp where
  | str : String → SExp
  | list : List SExp → SExp

/-- `skip_whitespace`: advance the cursor past whitespace. -/
def skip_ws (cs : List Char) : List Char := cs.dropWhile py_isspace

/-- The loop body of `parse_string`, entered just after the opening quote.
`acc` holds the collected characters in reverse (Python's `result` list).
A backslash with a following character appends only that following character;
a backslash that is the last character is appended literally and the loop then
fails at end of input, exactly as in the source. -/
def parse_string_aux : List Char → List Char → Except String (String × List Char)
  | _, [] => Except.error "Unterminated string"
  | acc, c :: rest =>
    if c = quoteChar then Except.ok (String.mk acc.reverse, rest)
    else if c = backslashChar then
      match rest with
      | d :: rest2 => parse_string_aux (d :: acc) rest2
      | [] =>
        -- a trailing backslash is appended literally and the loop then hits
        -- end of input, which raises "Unterminated string"
        Except.error "Unterminated string"
    else parse_string_aux (c :: acc) rest

/-- `SExpressionParser.parse_string`: requires the cursor to sit on a quote
(the source raises `ValueError` otherwise, and raises `IndexError` at end of
input). -/
def parse_string : List Char → Except String (String × List Char)
  | [] => Except.error "Index out of range"
  | c :: rest =>
    if c = quoteChar then parse_string_aux [] rest
    else Except.error "Expected quote"

/-- Characters that continue an unquoted atom: not whitespace and not a list
delimiter. -/
def atom_char (c : Char) : Bool := !(py_isspace c) && !(c = '(') && !(c = ')')

/-- `SExpressionParser.parse_atom`: take characters while `atom_char` holds. -/
def parse_atom (cs : List Char) : String × List Char :=
  (String.mk (cs.takeWhile atom_char), cs.dropWhile atom_char)

mutual

/-- `SExpressionParser.parse`.  The `fuel` argument only bounds recursion
depth so that the definition is structural; `parse` below supplies fuel larger
than the source's recursion depth on any input. -/
def parse_fuel : Nat → List Char → Except String (Option SExp × List Char)
  | 0, _ => Except.error "out of fuel"
  | Nat.succ fuel, cs =>
    match skip_ws cs with
    | [] => Except.ok (none, [])
    | c :: rest =>
      if c = '(' then
        match parse_list_fuel fuel [] rest with
        | Except.ok (node, rest2) => Except.ok (some node, rest2)
        | Except.error e => Except.error e
      else if c = quoteChar then
        match parse_string (c :: rest) with
        | Except.ok (s, rest2) => Except.ok (some (SExp.str s), rest2)
        | Except.error e => Except.error e
      else
        Except.ok (some (SExp.str (parse_atom (c :: rest)).1), (parse_atom (c :: rest)).2)

/-- The `while True` list loop of `SExpressionParser.parse`, entered just
after an opening parenthesis; `acc` holds the parsed elements in reverse. -/
def parse_list_fuel : Nat → List SExp → List Char → Except String (SExp × List Char)
  | 0, _, _ => Except.error "out of fuel"
  | Nat.succ fuel, acc, cs =>
    match skip_ws cs with
    | [] => Except.error "Unterminated list"
    | c :: rest =>
      if c = ')' then Except.ok (SExp.list acc.reverse, rest)
      else
        match parse_fuel fuel (c :: rest) with
        | Except.ok (some node, rest2) => parse_list_fuel fuel (node :: acc) rest2
        | Except.ok (none, _) =>
          -- unreachable: on non-empty input whose head is not whitespace the
          -- source's parse always returns a node
          Except.error "unreachable"
        | Except.error e => Except.error e

end

/-- Top-level entry point: `SExpressionParser(text).parse()`.  The fuel
`2 * length + 2` dominates the source parser's recursion depth, which is
bounded by the input length. -/
def parse (s : String) : Except String (Option SExp) :=
  match parse_fuel (2 * s.length + 2) s.toList with
  | Except.ok (r, _) => Except.ok r
  | Except.error e => Except.error e

/-! ### The specification's lexical reading of one expression

The specification describes the textual shape of one S-expression: a bare
token is a maximal run of non-whitespace, non-parenthesis characters; a
quoted value begins with a quote at a token boundary, a backslash inside it
consumes the following character, and an unconsumed quote ends it; `(`
opens a list and `)` closes the innermost open list; reading stops once the
first expression is complete.  `read_expr` below transcribes this reading
as a single left-to-right scan and classifies every input: no expression at
all, a complete first expression, or end of input reached inside an
unterminated quoted value or inside an unclosed list.  It is written from
the specification's words, to be compared with the parser `parse` above. -/

/-- State of the lexical scan: expecting the next token inside `d` open
lists (`inList d`), inside a bare token surrounded by `d` open lists
(`inAtom d`), or inside a quoted value surrounded by `d` open lists
(`inString esc d`, where `esc` records that a backslash has just been read
and consumes the next character). -/
inductive ScanMode where
  | inList : Nat → ScanMode
  | inAtom : Nat → ScanMode
  | inString : Bool → Nat → ScanMode

/-- Classification of an input by the specification's reading of its first
expression. -/
inductive ReadResult where
  | noExpr
  | complete
  | eofInString
  | eofInList
deriving DecidableEq

/-- The scan itself, one character at a time. -/
def read_from : ScanMode → List Char → ReadResult
  | ScanMode.inString _ _, [] => ReadResult.eofInString
  | ScanMode.inAtom _, [] => ReadResult.eofInList
  | ScanMode.inList _, [] => ReadResult.eofInList
  | ScanMode.inString true d, _ :: rest => read_from (ScanMode.inString false d) rest
  | ScanMode.inString false d, c :: rest =>
    if c = quoteChar then
      if d = 0 then ReadResult.complete else read_from (ScanMode.inList d) rest
    else if c = backslashChar then read_from (ScanMode.inString true d) rest
    else read_from (ScanMode.inString false d) rest
  | ScanMode.inAtom d, c :: rest =>
    if atom_char c then read_from (ScanMode.inAtom d) rest
    else if c = ')' then
      if d = 1 then ReadResult.complete else read_from (ScanMode.inList (d - 1)) rest
    else if c = '(' then read_from (ScanMode.inList (d + 1)) rest
    else read_from (ScanMode.inList d) rest
  | ScanMode.inList d, c :: rest =>
    if c = ')' then
      if d = 1 then ReadResult.complete else read_from (ScanMode.inList (d - 1)) rest
    else if c = '(' then read_from (ScanMode.inList (d + 1)) rest
    else if c = quoteChar then read_from (ScanMode.inString false d) rest
    else if py_isspace c then read_from (ScanMode.inList d) rest
    else read_from (ScanMode.inAtom d) rest

/-- Read the first expression of the input: skip leading whitespace; `(`
opens a list, a quote opens a quoted value, anything else begins a bare
token (which always completes, at a delimiter or at end of input);
whitespace-only input holds no expression. -/
def read_expr (cs : List Char) : ReadResult :=
  match skip_ws cs with
  | [] => ReadResult.noExpr
  | c :: rest =>
    if c = '(' then read_from (ScanMode.inList 1) rest
    else if c = quoteChar then read_from (ScanMode.inString false 0) rest
    else ReadResult.complete

/-! ### SQL escaping (`kicad_sym_to_db.py` and `db_to_tables.py`, `sql_escape`) -/

/-- Python `value.replace(squote, squote ++ squote)`: every embedded single
quote is doubled. -/
def escape_single_quotes (s : String) : String :=
  String.mk (s.toList.flatMap (fun c => if c = squoteChar then [c, c] else [c]))

/-- `kicad_sym_to_db.sql_escape` over `Optional[str]`: `None` and the empty
string both become the literal `NULL`; any other string is wrapped in single
quotes with embedded single quotes doubled. -/
def sql_escape (value : Option String) : String :=
  match value with
  | none => "NULL"
  | some v => if v = "" then "NULL" else "'" ++ escape_single_quotes v ++ "'"

/-- A SQLite value as seen by `db_to_tables.py`: `NULL`, an integer, or a
text value.  (Floats are not modelled; no claim involves them.) -/
inductive SqlValue where
  | null : SqlValue
  | intv : Int → SqlValue
  | text : String → SqlValue
deriving DecidableEq

/-- Decimal digit character, `chr(48 + d)`. -/
def decChar (d : Nat) : Char := Char.ofNat (48 + d)

/-- Decimal representation of a natural number (Python `str(n)` for
non-negative `n`), via explicit fuel so the definition is structural.  The
fuel `n + 1` always exceeds the number of digits. -/
def natDecimalAux : Nat → Nat → List Char
  | 0, _ => []
  | Nat.succ fuel, n =>
    if n < 10 then [decChar n]
    else natDecimalAux fuel (n / 10) ++ [decChar (n % 10)]

/-- Python `str(n)` for a natural number, as a character list. -/
def natDecimal (n : Nat) : List Char := natDecimalAux (n + 1) n

/-- Python `str(i)` for an integer. -/
def int_str (i : Int) : String :=
  if i < 0 then "-" ++ String.mk (natDecimal (-i).toNat)
  else String.mk (natDecimal i.toNat)

/-- `db_to_tables.sql_escape`: `None` and the empty string become `NULL`,
numbers are emitted unquoted via `str`, strings are quoted with embedded
single quotes doubled. -/
def sql_escape_db : SqlValue → String
  | SqlValue.null => "NULL"
  | SqlValue.intv i => int_str i
  | SqlValue.text s =>
    if s = "" then "NULL" else "'" ++ escape_single_quotes s ++ "'"

/-- Python `', '.join`. -/
def join_comma : List String → String
  | [] => ""
  | [x] => x
  | x :: y :: rest => x ++ ", " ++ join_comma (y :: rest)

/-- One `INSERT` statement of `dump_table_data_by_priority_source`. -/
def row_insert_sql (table : String) (columns : List String) (vals : List SqlValue) : String :=
  "INSERT INTO " ++ table ++ " (" ++
    join_comma (columns.map (fun c => "\"" ++ c ++ "\"")) ++ ") VALUES (" ++
    join_comma (vals.map sql_escape_db) ++ ");"

/-! ### Symbol records (`kicad_sym_to_db.py`)

A symbol is a Python dict from field name to a string or `None`, modelled as
an association list in insertion order with unique keys.  `sym_get` is
`dict.get(k)` (absent key and stored `None` both give `None`), `sym_set` is
item assignment (update in place, or append for a new key). -/

/-- A symbol record: insertion-ordered association list; a stored `none`
models a Python `None` value. -/
abbrev Symbol := List (String × Option String)

/-- Python `k in d`. -/
def sym_has (s : Symbol) (k : String) : Bool := (s.lookup k).isSome

/-- Python `d.get(k)`: `None` both for a missing key and a stored `None`. -/
def sym_get (s : Symbol) (k : String) : Option String := (s.lookup k).join

/-- Python `d[k] = v`: replace the entry in place if the key exists, else
append a new entry. -/
def sym_set (s : Symbol) (k : String) (v : Option String) : Symbol :=
  if (s.lookup k).isSome then
    s.map (fun p => if p.1 == k then (k, v) else p)
  else s ++ [(k, v)]

/-- Python `d.get(k, default)` where the stored values are strings; a stored
`None` cannot occur at the call sites modelled with this helper. -/
def sym_get_str (s : Symbol) (k : String) : String :=
  match s.lookup k with
  | some (some v) => v
  | _ => ""

/-! ### The extractor (`extract_symbols_from_sexp`) -/

/-- Build the record for one symbol definition: the `properties` dict starts
from the `Symbol_Name` and `Symbol` entries and then folds the `property`
children in document order (later occurrences overwrite earlier ones).  A
`property` child contributes only when it has at least a name and a value,
as in the source (`len(sub_item) > 2`); children whose name or value is a
sub-list (which would make the source store a non-string value or raise) are
outside every claim and are skipped. -/
def extract_one_symbol (library_name : Option String) (name : String) (body : List SExp) : Symbol :=
  let symbol_ref :=
    match library_name with
    | some lib => if lib = "" then name else lib ++ ":" ++ name
    | none => name
  body.foldl
    (fun props item =>
      match item with
      | SExp.list (SExp.str p :: SExp.str pname :: SExp.str pvalue :: _) =>
        if p = "property" then sym_set props pname (some pvalue) else props
      | _ => props)
    [("Symbol_Name", some name), ("Symbol", some symbol_ref)]

mutual

/-- `extract_symbols_from_sexp`: non-lists yield no symbols; a list is
scanned item by item. -/
def extract_symbols_from_sexp (library_name : Option String) : SExp → List Symbol
  | SExp.str _ => []
  | SExp.list items => extract_items library_name items

/-- The `for item in sexp` loop: a non-empty list item whose head is the
`symbol` tag and which carries a name as second element yields one record;
any other non-empty list item is recursed into (recursing into a list item
scans its children, as the source's recursive call does); strings and empty
lists are skipped.  A definition whose name position holds a sub-list (the
source would then build a degenerate record keyed by a Python list) is
outside every claim and yields nothing here. -/
def extract_items (library_name : Option String) : List SExp → List Symbol
  | [] => []
  | item :: rest =>
    (match item with
     | SExp.list (SExp.str tag :: second :: body) =>
       if tag = "symbol" then
         match second with
         | SExp.str name => [extract_one_symbol library_name name body]
         | SExp.list _ => []
       else extract_items library_name (SExp.str tag :: second :: body)
     | SExp.list (first :: tail) => extract_items library_name (first :: tail)
     | _ => []) ++ extract_items library_name rest

end

/-! ### SPICE auto-population (`populate_spice_fields`) -/

/-- The initialisation phase of `populate_spice_fields`: set each of the four
`Sim.*` keys to `None` when not already present. -/
def spice_init (symbol : Symbol) : Symbol :=
  let s1 := if sym_has symbol "Sim.Device" then symbol else sym_set symbol "Sim.Device" none
  let s2 := if sym_has s1 "Sim.Pins" then s1 else sym_set s1 "Sim.Pins" none
  let s3 := if sym_has s2 "Sim.Type" then s2 else sym_set s2 "Sim.Type" none
  if sym_has s3 "Sim.Library" then s3 else sym_set s3 "Sim.Library" none

/-- Writing one fixed device-model tuple into the four `Sim.*` fields. -/
def spice_tuple (s : Symbol) (device : String) : Symbol :=
  sym_set (sym_set (sym_set (sym_set s
    "Sim.Device" (some device)) "Sim.Pins" (some "1=+ 2=-")) "Sim.Type" (some "")) "Sim.Library" (some "")

/-- `populate_spice_fields`: read `Reference` and `Value` (with `''` default),
initialise the four `Sim.*` keys to `None` when absent, then for a reference
starting with `R`, `L` or `C` together with a non-empty value overwrite all
four fields with the fixed built-in model tuple for that class. -/
def populate_spice_fields (symbol : Symbol) : Symbol :=
  let reference := sym_get_str symbol "Reference"
  let value := sym_get_str symbol "Value"
  let s4 := spice_init symbol
  if py_startswith reference "R" && !(value == "") then spice_tuple s4 "R"
  else if py_startswith reference "L" && !(value == "") then spice_tuple s4 "L"
  else if py_startswith reference "C" && !(value == "") then spice_tuple s4 "C"
  else s4

/-! ### Field name sanitization and the field mapping
(`create_field_mapping`, `prepare_symbol_values`) -/

/-- A word character in the sense of the regex `\w`: letter, digit or
underscore (ASCII range, as all field names in scope are ASCII). -/
def isWordChar (c : Char) : Bool := c.isAlphanum || c = '_'

mutual

/-- The regex substitution `re.sub(r'[^\w]+', '_', s)` as a two-state
scanner: a run of non-word characters collapses to a single underscore. -/
def collapse_nonword : List Char → List Char
  | [] => []
  | c :: rest =>
    if isWordChar c then c :: collapse_nonword rest else '_' :: collapse_skip rest

/-- State after emitting the underscore for a non-word run: further non-word
characters are absorbed. -/
def collapse_skip : List Char → List Char
  | [] => []
  | c :: rest =>
    if isWordChar c then c :: collapse_nonword rest else collapse_skip rest

end

/-- Python `s.strip(underscore)`: drop leading and trailing underscores. -/
def strip_underscores (l : List Char) : List Char :=
  ((l.dropWhile (fun c => c = '_')).reverse.dropWhile (fun c => c = '_')).reverse

/-- `re.sub(r'[^\w]+', '_', s).strip(underscore)`: the column-name
sanitization used throughout `kicad_sym_to_db.py`. -/
def sanitize (s : String) : String :=
  String.mk (strip_underscores (collapse_nonword s.toList))

/-- A `field_mapping_patterns` entry.  The compiled regular expression of the
source (an external-library object) is abstracted as its `search` predicate;
every pattern rule in scope of the claims is a valid regex. -/
structure MappingPattern where
  search : String → Bool
  replacement : String

/-- The rename step of `create_field_mapping` for one field: an exact
`name_mappings` entry wins, otherwise the first matching pattern, otherwise
the field name itself. -/
def rename_field (name_mappings : List (String × String)) (mapping_patterns : List MappingPattern) (field : String) : String :=
  match name_mappings.lookup field with
  | some n => n
  | none =>
    match mapping_patterns.find? (fun p => p.search field) with
    | some p => p.replacement
    | none => field

/-- Insertion sort by a Boolean `le`, modelling Python `sorted` (any sort
gives the same result on the duplicate-free lists in scope). -/
def insert_by (le : α → α → Bool) (a : α) : List α → List α
  | [] => [a]
  | b :: l => if le a b then a :: b :: l else b :: insert_by le a l

/-- Sort a list by a Boolean `le`. -/
def sort_by (le : α → α → Bool) (l : List α) : List α := l.foldr (insert_by le) []

/-- The `field_list` of `create_field_mapping`: the field set sorted
ascending (Python `sorted`), with `Symbol_Name` moved to the front when
present. -/
def py_field_list (fields : List String) : List String :=
  let sorted := sort_by py_str_le fields.dedup
  if "Symbol_Name" ∈ sorted then "Symbol_Name" :: sorted.erase "Symbol_Name"
  else sorted

/-- `create_field_mapping`: an insertion-ordered dict from each original
field name to its sanitized canonical column name. -/
def create_field_mapping (fields : List String) (name_mappings : List (String × String)) (mapping_patterns : List MappingPattern) : List (String × String) :=
  (py_field_list fields).map
    (fun f => (f, sanitize (rename_field name_mappings mapping_patterns f)))

/-- The loop of `prepare_symbol_values`: first field of the record holding a
non-`None` value, in candidate order. -/
def first_non_none (symbol : Symbol) : List String → Option String
  | [] => none
  | f :: rest =>
    match sym_get symbol f with
    | some v => some v
    | none => first_non_none symbol rest

/-- `prepare_symbol_values`: populate the SPICE fields, group the mapping's
original fields by lower-cased target column (a dict in first-encounter
order), and resolve each column to the first non-`None` candidate value,
trying fields whose own sanitized name equals the column first (Python's
stable sort with a 0/1 key is a stable partition). -/
def prepare_symbol_values (symbol : Symbol) (field_mapping : List (String × String)) : List (String × Option String) :=
  let symbol2 := populate_spice_fields symbol
  let column_lowers := (field_mapping.map (fun p => py_lower p.2)).dedup
  column_lowers.map (fun colL =>
    let canonical :=
      match field_mapping.find? (fun p => py_lower p.2 = colL) with
      | some p => p.2
      | none => ""
    let original_fields := (field_mapping.filter (fun p => py_lower p.2 = colL)).map Prod.fst
    let sorted_fields :=
      original_fields.filter (fun f => py_lower (sanitize f) = colL) ++
        original_fields.filter (fun f => !(py_lower (sanitize f) = colL))
    (canonical, first_non_none symbol2 sorted_fields))

/-- The per-column candidate list exactly as the (amended) specification
describes it: all raw fields of the mapping whose target column is this one,
those whose own sanitized name equals the column name first, remaining ties
in the order of the raw-name list. -/
def claim_candidates (raws : List String) (target : String → String) (colL : String) : List String :=
  let all := raws.filter (fun f => py_lower (target f) = colL)
  all.filter (fun f => py_lower (sanitize f) = colL) ++
    all.filter (fun f => !(py_lower (sanitize f) = colL))

/-- Value resolution stated from the (amended) specification's words: for
each canonical column (in first-seen order over the raw-name list, which is
ascending with `Symbol_Name` first), choose the first non-`None` value among
`claim_candidates`; the column is absent (`None`) when no candidate yields a
value. -/
def claim_value_resolution (symbol : Symbol) (fields : List String) (name_mappings : List (String × String)) (mapping_patterns : List MappingPattern) : List (String × Option String) :=
  let symbol2 := populate_spice_fields symbol
  let raws := py_field_list fields
  let target := fun f => sanitize (rename_field name_mappings mapping_patterns f)
  let column_lowers := (raws.map (fun f => py_lower (target f))).dedup
  column_lowers.map (fun colL =>
    let canonical :=
      match raws.find? (fun f => py_lower (target f) = colL) with
      | some f => target f
      | none => ""
    (canonical, first_non_none symbol2 (claim_candidates raws target colL)))

/-! ### The category classifier (`migrate_to_tables.py`) -/

/-- The `REFERENCE_TO_TABLE` lookup table. -/
def REFERENCE_TO_TABLE : List (String × String) :=
  [("R", "resistors"), ("C", "capacitors"), ("L", "inductors"),
   ("FB", "ferrites"), ("Q", "transistors"), ("D", "diodes"),
   ("J", "connectors"), ("LED", "leds"), ("SW", "switches"),
   ("U", "ic_analog"), ("IC", "ic_analog")]

/-- The fifteen component tables created by `create_table_schemas`. -/
def target_table_names : List String :=
  ["resistors", "capacitors", "inductors", "ferrites", "transistors",
   "diodes", "connectors", "ic_drivers", "ic_microcontrollers", "ic_logic",
   "ic_memory", "ic_opamp", "ic_analog", "leds", "switches"]

/-- Python `(row.get(k) or '')`: missing key and stored `None` both give the
empty string. -/
def row_text (row : Symbol) (k : String) : String :=
  match row.lookup k with
  | some (some s) => s
  | _ => ""

/-- `categorize_ic`: route an IC record by ordered keyword groups over the
lower-cased description and component type; first matching group wins,
default `ic_analog`. -/
def categorize_ic (row : Symbol) : String :=
  let desc := py_lower (row_text row "Description")
  let comp_type := py_lower (row_text row "Component_Type")
  if ["op-amp", "opamp", "operational amplifier", "instrumentation amp"].any (fun x => py_in x desc) then "ic_opamp"
  else if ["opamp", "op-amp"].any (fun x => py_in x comp_type) then "ic_opamp"
  else if ["microcontroller", "mcu", "stm32", "pic", "avr", "esp32", "rp2040"].any (fun x => py_in x desc) then "ic_microcontrollers"
  else if ["microcontroller", "mcu"].any (fun x => py_in x comp_type) then "ic_microcontrollers"
  else if ["logic", "gate", "buffer", "latch", "flip-flop", "decoder", "mux"].any (fun x => py_in x desc) then "ic_logic"
  else if py_startswith comp_type "74" then "ic_logic"
  else if ["memory", "sram", "dram", "flash", "eeprom", "fram"].any (fun x => py_in x desc) then "ic_memory"
  else if ["memory", "sram", "eeprom"].any (fun x => py_in x comp_type) then "ic_memory"
  else if ["driver", "gate driver", "led driver", "motor driver"].any (fun x => py_in x desc) then "ic_drivers"
  else if ["driver"].any (fun x => py_in x comp_type) then "ic_drivers"
  else "ic_analog"

/-- The `row.get('Reference', '')` read of `get_target_table`: the empty
string for a missing key, otherwise the stored value (a stored Python `None`
is never a key of `REFERENCE_TO_TABLE` and takes the warning branch). -/
def reference_of (row : Symbol) : Option String :=
  match row.lookup "Reference" with
  | none => some ""
  | some v => v

/-- `get_target_table`, returning the chosen table and whether the
unknown-reference warning was emitted. -/
def get_target_table (row : Symbol) : String × Bool :=
  match reference_of row with
  | some r =>
    match REFERENCE_TO_TABLE.lookup r with
    | some table => if table = "ic_analog" then (categorize_ic row, false) else (table, false)
    | none => ("connectors", true)
  | none => ("connectors", true)

/-- Whether a record's reference is a key of the classifier's lookup table. -/
def known_reference (row : Symbol) : Bool :=
  match reference_of row with
  | some r => (REFERENCE_TO_TABLE.lookup r).isSome
  | none => false

/-! ### The partitioned dumper (`db_to_tables.py`)

A table is modelled as carrying `dump_priority` and `source` columns (the
claims are scoped to such tables); `key` is the row's value in the sort
column.  The priority is a natural number, as in the specification's data
model. -/

/-- One database row. -/
structure DbRow where
  key : String
  dump_priority : Nat
  source : Option String
  vals : List SqlValue
deriving DecidableEq

/-- One database table. -/
structure DbTable where
  name : String
  rows : List DbRow
deriving DecidableEq

/-- Row order by the sort column, modelling `ORDER BY`. -/
def row_le (a b : DbRow) : Bool := py_str_le a.key b.key

/-- `ORDER BY dump_priority, source` on the distinct pairs. -/
def pair_le (a b : Nat × String) : Bool :=
  a.1 < b.1 || (a.1 == b.1 && py_str_le a.2 b.2)

/-- The `WHERE dump_priority > 0 AND source IS NOT NULL AND source != ''`
filter of `get_table_dump_info`, yielding the row's group pair. -/
def qualifying_pair (r : DbRow) : Option (Nat × String) :=
  if 0 < r.dump_priority then
    match r.source with
    | some s => if s = "" then none else some (r.dump_priority, s)
    | none => none
  else none

/-- The result set of the `SELECT DISTINCT ... ORDER BY` query of
`get_table_dump_info`. -/
def dump_info_pairs (t : DbTable) : List (Nat × String) :=
  sort_by pair_le (t.rows.filterMap qualifying_pair).dedup

/-- `get_table_dump_info`: the distinct qualifying `(dump_priority, source)`
pairs in `ORDER BY` order together with the maximum priority; the fallback
`([(1, 'static')], 1)` when no row qualifies. -/
def get_table_dump_info (t : DbTable) : List (Nat × String) × Nat :=
  match dump_info_pairs t with
  | [] => ([(1, "static")], 1)
  | p :: rest => (p :: rest, (rest.map Prod.fst).foldl max p.1)

/-- `padding_width = len(str(max_priority))`. -/
def padding_width (t : DbTable) : Nat := (natDecimal (get_table_dump_info t).2).length

/-- Python `f"{p:0{w}d}"` for non-negative `p`: left-pad the decimal
representation with zeros to width `w`. -/
def priority_str (w p : Nat) : List Char :=
  List.replicate (w - (natDecimal p).length) '0' ++ natDecimal p

/-- The rows of one data group: `WHERE dump_priority = ? AND source = ?`
sorted by the sort column. -/
def data_rows (t : DbTable) (p : Nat) (s : String) : List DbRow :=
  sort_by row_le (t.rows.filter (fun r => r.dump_priority == p && r.source == some s))

/-- One artifact written by `dump_table_to_file`: its filename, the priority
encoded in the filename (`0` for the schema artifact) and the rows whose
`INSERT` statements it contains (none for the schema artifact). -/
structure Artifact where
  filename : String
  priority : Nat
  rows : List DbRow
deriving DecidableEq

/-- The schema artifact filename `{table}_{zeros}_schema.sql`. -/
def schema_filename (tname : String) (w : Nat) : String :=
  tname ++ "_" ++ String.mk (List.replicate w '0') ++ "_schema.sql"

/-- The data artifact filename: zero-padded priority, then the source tag,
with the reserved source `static` collapsing to the suffix `data`. -/
def data_filename (tname : String) (w p : Nat) (s : String) : String :=
  tname ++ "_" ++ String.mk (priority_str w p) ++ "_" ++
    (if s = "static" then "data" else s) ++ ".sql"

/-- `dump_table_to_file`: the schema artifact plus one data artifact per
group from `get_table_dump_info` that has any rows (empty groups are
skipped). -/
def dump_table (t : DbTable) : List Artifact :=
  { filename := schema_filename t.name (padding_width t), priority := 0, rows := [] } ::
    (get_table_dump_info t).1.filterMap (fun ps =>
      if (data_rows t ps.1 ps.2).isEmpty then none
      else some { filename := data_filename t.name (padding_width t) ps.1 ps.2,
                  priority := ps.1, rows := data_rows t ps.1 ps.2 })

/-! ### Helper lemmas: association-list updates -/

theorem lookup_map_update_self (s : Symbol) (k : String) (v : Option String)
    (h : (s.lookup k).isSome) :
    (s.map (fun p => if p.1 == k then (k, v) else p)).lookup k = some v := by
  induction s with
  | nil => simp at h
  | cons a t ih =>
    obtain ⟨a1, a2⟩ := a
    rw [List.map_cons]
    by_cases hak : a1 = k
    · subst hak
      rw [if_pos (beq_self_eq_true a1)]
      simp [List.lookup]
    · have h1 : (a1 == k) = false := beq_eq_false_iff_ne.mpr hak
      have h2 : (k == a1) = false := beq_eq_false_iff_ne.mpr (fun hh => hak hh.symm)
      rw [if_neg (by simp [h1])]
      simp only [List.lookup, h2] at h ⊢
      exact ih h

theorem lookup_map_update_ne (s : Symbol) (k k' : String) (v : Option String)
    (h : k' ≠ k) :
    (s.map (fun p => if p.1 == k then (k, v) else p)).lookup k' = s.lookup k' := by
  induction s with
  | nil => rfl
  | cons a t ih =>
    obtain ⟨a1, a2⟩ := a
    rw [List.map_cons]
    have hk : (k' == k) = false := beq_eq_false_iff_ne.mpr h
    by_cases hak : a1 = k
    · subst hak
      rw [if_pos (beq_self_eq_true a1)]
      simp only [List.lookup, hk]
      exact ih
    · have h1 : (a1 == k) = false := beq_eq_false_iff_ne.mpr hak
      rw [if_neg (by simp [h1])]
      simp only [List.lookup]
      cases hka : k' == a1 with
      | true => rfl
      | false => exact ih

theorem lookup_append_left (s t : Symbol) (k : String) (w : Option String)
    (h : s.lookup k = some w) : (s ++ t).lookup k = some w := by
  induction s with
  | nil => simp [List.lookup] at h
  | cons a l ih =>
    obtain ⟨a1, a2⟩ := a
    by_cases hk : k = a1
    · subst hk
      simp only [List.lookup, beq_self_eq_true] at h
      simp [List.lookup, h]
    · have h1 : (k == a1) = false := beq_eq_false_iff_ne.mpr hk
      simp only [List.lookup, h1] at h
      simp [List.lookup, h1, ih h]

theorem lookup_append_right (s t : Symbol) (k : String)
    (h : s.lookup k = none) : (s ++ t).lookup k = t.lookup k := by
  induction s with
  | nil => rfl
  | cons a l ih =>
    obtain ⟨a1, a2⟩ := a
    by_cases hk : k = a1
    · subst hk
      simp [List.lookup] at h
    · have h1 : (k == a1) = false := beq_eq_false_iff_ne.mpr hk
      simp only [List.lookup, h1] at h
      simp [List.lookup, h1, ih h]

theorem lookup_sym_set_self (s : Symbol) (k : String) (v : Option String) :
    (sym_set s k v).lookup k = some v := by
  unfold sym_set
  cases hc : s.lookup k with
  | some w =>
    have h : (s.lookup k).isSome := by simp [hc]
    simp only [hc, Option.isSome_some, if_true]
    exact lookup_map_update_self s k v (by simp [hc])
  | none =>
    simp only [hc, Option.isSome_none, Bool.false_eq_true, if_false]
    rw [lookup_append_right s _ k hc]
    simp [List.lookup]

theorem lookup_sym_set_ne (s : Symbol) (k k' : String) (v : Option String)
    (h : k' ≠ k) : (sym_set s k v).lookup k' = s.lookup k' := by
  unfold sym_set
  cases hc : s.lookup k with
  | some w =>
    simp only [hc, Option.isSome_some, if_true]
    exact lookup_map_update_ne s k k' v h
  | none =>
    simp only [hc, Option.isSome_none, Bool.false_eq_true, if_false]
    cases hc2 : s.lookup k' with
    | some w => exact lookup_append_left s _ k' w hc2
    | none =>
      rw [lookup_append_right s _ k' hc2]
      have hk : (k' == k) = false := beq_eq_false_iff_ne.mpr h
      simp [List.lookup, hk]

theorem sym_get_sym_set_self (s : Symbol) (k : String) (v : Option String) :
    sym_get (sym_set s k v) k = v := by
  unfold sym_get
  rw [lookup_sym_set_self]
  rfl

theorem sym_get_sym_set_ne (s : Symbol) (k k' : String) (v : Option String)
    (h : k' ≠ k) : sym_get (sym_set s k v) k' = sym_get s k' := by
  unfold sym_get
  rw [lookup_sym_set_ne s k k' v h]

/-- The four `Sim.*` reads after the four writes of `spice_tuple`. -/
theorem sym_get_spice_tuple (s : Symbol) (device : String) :
    sym_get (spice_tuple s device) "Sim.Device" = some device ∧
    sym_get (spice_tuple s device) "Sim.Pins" = some "1=+ 2=-" ∧
    sym_get (spice_tuple s device) "Sim.Type" = some "" ∧
    sym_get (spice_tuple s device) "Sim.Library" = some "" := by
  unfold spice_tuple
  refine ⟨?_, ?_, ?_, ?_⟩
  · rw [sym_get_sym_set_ne _ _ _ _ (by decide), sym_get_sym_set_ne _ _ _ _ (by decide),
      sym_get_sym_set_ne _ _ _ _ (by decide), sym_get_sym_set_self]
  · rw [sym_get_sym_set_ne _ _ _ _ (by decide), sym_get_sym_set_ne _ _ _ _ (by decide),
      sym_get_sym_set_self]
  · rw [sym_get_sym_set_ne _ _ _ _ (by decide), sym_get_sym_set_self]
  · rw [sym_get_sym_set_self]

/-! ### Claim C5 -/

/-- C5: for every record whose `Reference` starts with a passive-component
class letter (`R`, `L` or `C`, the earlier branch taking precedence as in the
source's `elif` chain) and whose `Value` field is non-empty,
`populate_spice_fields` overwrites all four simulation-metadata columns with
that class's fixed device-model tuple, regardless of any values the record
already carried for them. -/
theorem C5_spice_overwrite (symbol : Symbol) (r v : String)
    (href : symbol.lookup "Reference" = some (some r))
    (hval : symbol.lookup "Value" = some (some v))
    (hv : v ≠ "") :
    (py_startswith r "R" = true →
      sym_get (populate_spice_fields symbol) "Sim.Device" = some "R" ∧
      sym_get (populate_spice_fields symbol) "Sim.Pins" = some "1=+ 2=-" ∧
      sym_get (populate_spice_fields symbol) "Sim.Type" = some "" ∧
      sym_get (populate_spice_fields symbol) "Sim.Library" = some "") ∧
    (py_startswith r "R" = false → py_startswith r "L" = true →
      sym_get (populate_spice_fields symbol) "Sim.Device" = some "L" ∧
      sym_get (populate_spice_fields symbol) "Sim.Pins" = some "1=+ 2=-" ∧
      sym_get (populate_spice_fields symbol) "Sim.Type" = some "" ∧
      sym_get (populate_spice_fields symbol) "Sim.Library" = some "") ∧
    (py_startswith r "R" = false → py_startswith r "L" = false →
      py_startswith r "C" = true →
      sym_get (populate_spice_fields symbol) "Sim.Device" = some "C" ∧
      sym_get (populate_spice_fields symbol) "Sim.Pins" = some "1=+ 2=-" ∧
      sym_get (populate_spice_fields symbol) "Sim.Type" = some "" ∧
      sym_get (populate_spice_fields symbol) "Sim.Library" = some "") := by
  have hvb : (v == "") = false := by simpa [beq_eq_false_iff_ne] using hv
  have hr : sym_get_str symbol "Reference" = r := by unfold sym_get_str; rw [href]
  have hvv : sym_get_str symbol "Value" = v := by unfold sym_get_str; rw [hval]
  refine ⟨?_, ?_, ?_⟩
  · intro hR
    have hkey : populate_spice_fields symbol = spice_tuple (spice_init symbol) "R" := by
      unfold populate_spice_fields
      simp only [hr, hvv, hvb, hR, Bool.not_false, Bool.and_true, if_true]
    rw [hkey]
    exact sym_get_spice_tuple _ _
  · intro hR hL
    have hkey : populate_spice_fields symbol = spice_tuple (spice_init symbol) "L" := by
      unfold populate_spice_fields
      simp only [hr, hvv, hvb, hR, hL, Bool.not_false, Bool.and_true, Bool.false_and,
        Bool.false_eq_true, if_false, if_true]
    rw [hkey]
    exact sym_get_spice_tuple _ _
  · intro hR hL hC
    have hkey : populate_spice_fields symbol = spice_tuple (spice_init symbol) "C" := by
      unfold populate_spice_fields
      simp only [hr, hvv, hvb, hR, hL, hC, Bool.not_false, Bool.and_true, Bool.false_and,
        Bool.false_eq_true, if_false, if_true]
    rw [hkey]
    exact sym_get_spice_tuple _ _

/-- Witness for C5: a resistor record that already carries explicit values in
all four simulation fields still ends up with the fixed built-in tuple. -/
theorem C5_spice_overwrite_witness :
    sym_get (populate_spice_fields
      [("Reference", some "R10"), ("Value", some "10k"),
       ("Sim.Device", some "custom"), ("Sim.Pins", some "3=a"),
       ("Sim.Type", some "ext"), ("Sim.Library", some "ext.lib")]) "Sim.Device" = some "R" ∧
    sym_get (populate_spice_fields
      [("Reference", some "R10"), ("Value", some "10k"),
       ("Sim.Device", some "custom"), ("Sim.Pins", some "3=a"),
       ("Sim.Type", some "ext"), ("Sim.Library", some "ext.lib")]) "Sim.Pins" = some "1=+ 2=-" ∧
    sym_get (populate_spice_fields
      [("Reference", some "R10"), ("Value", some "10k"),
       ("Sim.Device", some "custom"), ("Sim.Pins", some "3=a"),
       ("Sim.Type", some "ext"), ("Sim.Library", some "ext.lib")]) "Sim.Type" = some "" ∧
    sym_get (populate_spice_fields
      [("Reference", some "R10"), ("Value", some "10k"),
       ("Sim.Device", some "custom"), ("Sim.Pins", some "3=a"),
       ("Sim.Type", some "ext"), ("Sim.Library", some "ext.lib")]) "Sim.Library" = some "" :=
  (C5_spice_overwrite
    [("Reference", some "R10"), ("Value", some "10k"),
     ("Sim.Device", some "custom"), ("Sim.Pins", some "3=a"),
     ("Sim.Type", some "ext"), ("Sim.Library", some "ext.lib")]
    "R10" "10k" rfl rfl (by decide)).1 rfl

/-! ### Claim C6 -/

/-- The serialization-level equivalence classes of C6: equal values, or
`NULL` against the empty text value. -/
def null_equiv (a b : SqlValue) : Prop :=
  a = b ∨ (a = SqlValue.null ∧ b = SqlValue.text "") ∨
    (a = SqlValue.text "" ∧ b = SqlValue.null)

theorem sql_escape_db_null_equiv {a b : SqlValue} (h : null_equiv a b) :
    sql_escape_db a = sql_escape_db b := by
  rcases h with rfl | ⟨rfl, rfl⟩ | ⟨rfl, rfl⟩ <;> rfl

/-- C6: both `sql_escape` functions map `None` and the empty string to the
same literal `NULL`; every other string value is wrapped in single quotes
with every embedded single quote doubled; consequently two rows that differ
only by `NULL` versus empty string in some fields produce identical `INSERT`
statements. -/
theorem C6_null_collapse :
    sql_escape none = "NULL" ∧
    sql_escape (some "") = "NULL" ∧
    sql_escape_db SqlValue.null = "NULL" ∧
    sql_escape_db (SqlValue.text "") = "NULL" ∧
    (∀ s : String, s ≠ "" →
      sql_escape (some s) = "'" ++ escape_single_quotes s ++ "'" ∧
      sql_escape_db (SqlValue.text s) = sql_escape (some s)) ∧
    (∀ (table : String) (cols : List String) (vs1 vs2 : List SqlValue),
      List.Forall₂ null_equiv vs1 vs2 →
      row_insert_sql table cols vs1 = row_insert_sql table cols vs2) := by
  refine ⟨rfl, rfl, rfl, rfl, ?_, ?_⟩
  · intro s hs
    constructor
    · simp [sql_escape, hs]
    · simp [sql_escape, sql_escape_db]
  · intro table cols vs1 vs2 h
    have hmap : vs1.map sql_escape_db = vs2.map sql_escape_db := by
      induction h with
      | nil => rfl
      | cons hab _ ih => simp [sql_escape_db_null_equiv hab, ih]
    unfold row_insert_sql
    rw [hmap]

/-- Witness for C6: concrete escaping of a value containing a quote, and a
concrete `NULL`-versus-empty-string pair of rows with identical statements. -/
theorem C6_null_collapse_witness :
    sql_escape (some "O'Brien") = "'O''Brien'" ∧
    row_insert_sql "symbols" ["a", "b"] [SqlValue.text "x", SqlValue.null] =
      row_insert_sql "symbols" ["a", "b"] [SqlValue.text "x", SqlValue.text ""] := by
  constructor
  · rw [(C6_null_collapse.2.2.2.2.1 "O'Brien" (by decide)).1]
    rfl
  · exact C6_null_collapse.2.2.2.2.2 "symbols" ["a", "b"] _ _
      (List.Forall₂.cons (Or.inl rfl)
        (List.Forall₂.cons (Or.inr (Or.inl ⟨rfl, rfl⟩)) List.Forall₂.nil))

/-! ### Claim C8 -/

theorem mem_values_of_lookup (l : List (String × String)) (k v : String)
    (h : l.lookup k = some v) : v ∈ l.map Prod.snd := by
  induction l with
  | nil => simp [List.lookup] at h
  | cons a t ih =>
    obtain ⟨a1, a2⟩ := a
    by_cases hk : k = a1
    · subst hk
      simp only [List.lookup, beq_self_eq_true] at h
      injection h with hh
      simp [hh]
    · have h1 : (k == a1) = false := beq_eq_false_iff_ne.mpr hk
      simp only [List.lookup, h1] at h
      simp [ih h]

set_option maxHeartbeats 800000 in
theorem categorize_ic_mem (row : Symbol) :
    categorize_ic row ∈ target_table_names := by
  unfold categorize_ic
  dsimp only
  split_ifs <;> decide

/-- C8: a record whose reference designator is not a key of
`REFERENCE_TO_TABLE` is classified non-fatally: the warning flag is set and
the record is routed to the `connectors` fallback table; and classification
is total, every record lands in one of the fifteen component tables (no
record is dropped). -/
theorem C8_unknown_reference_fallback :
    (∀ row : Symbol, known_reference row = false →
      get_target_table row = ("connectors", true)) ∧
    (∀ row : Symbol, (get_target_table row).1 ∈ target_table_names) := by
  constructor
  · intro row h
    unfold known_reference at h
    unfold get_target_table
    cases hl : reference_of row with
    | none => rfl
    | some r =>
      rw [hl] at h
      simp only at h
      cases hlk : REFERENCE_TO_TABLE.lookup r with
      | none => simp only [hlk]
      | some t => rw [hlk] at h; simp at h
  · intro row
    unfold get_target_table
    cases hl : reference_of row with
    | none =>
      show ("connectors", true).1 ∈ target_table_names
      decide
    | some r =>
      cases hlk : REFERENCE_TO_TABLE.lookup r with
      | none =>
        simp only [hlk]
        decide
      | some table =>
        simp only [hlk]
        by_cases ht : table = "ic_analog"
        · simp only [ht, if_true]
          exact categorize_ic_mem row
        · simp only [ht, if_false]
          have hm : table ∈ REFERENCE_TO_TABLE.map Prod.snd :=
            mem_values_of_lookup _ _ _ hlk
          have hsub : ∀ x ∈ REFERENCE_TO_TABLE.map Prod.snd, x ∈ target_table_names := by
            decide
          exact hsub table hm

/-- Witness for C8: a record with the unrecognised reference `XYZ` lands in
the `connectors` fallback with the warning flag, and a known record is
classified into a valid table. -/
theorem C8_unknown_reference_fallback_witness :
    get_target_table [("Reference", some "XYZ")] = ("connectors", true) ∧
    (get_target_table [("Reference", some "Q")]).1 ∈ target_table_names := by
  constructor
  · exact C8_unknown_reference_fallback.1 [("Reference", some "XYZ")] (by decide)
  · exact C8_unknown_reference_fallback.2 [("Reference", some "Q")]

/-! ### Claim C9 -/

theorem lookup_foldl_sym_set (props : List (String × String)) (base : Symbol)
    (k : String) (h : ∀ p ∈ props, p.1 ≠ k) :
    (props.foldl (fun s p => sym_set s p.1 (some p.2)) base).lookup k = base.lookup k := by
  induction props generalizing base with
  | nil => rfl
  | cons p t ih =>
    rw [List.foldl_cons]
    rw [ih _ (fun q hq => h q (List.mem_cons_of_mem p hq))]
    exact lookup_sym_set_ne base p.1 k (some p.2) (Ne.symm (h p (List.mem_cons_self p t)))

/-- The record built for a symbol definition whose property children are
given as name/value pairs, for any namespace argument. -/
theorem extract_one_symbol_props (lib : Option String) (name : String)
    (props : List (String × String)) :
    extract_one_symbol lib name
        (props.map (fun p => SExp.list [SExp.str "property", SExp.str p.1, SExp.str p.2])) =
      props.foldl (fun s p => sym_set s p.1 (some p.2))
        [("Symbol_Name", some name),
         ("Symbol", some (match lib with
                          | some l => if l = "" then name else l ++ ":" ++ name
                          | none => name))] := by
  unfold extract_one_symbol
  rw [List.foldl_map]
  rfl

/-- C9: a definition's own name is recorded under the `Symbol_Name` key and
the reference under the `Symbol` key — `namespace:name` when a non-empty
namespace is supplied, and just `name` when the namespace is absent or
empty (for properties that do not themselves use those two reserved keys,
which would overwrite them by the documented last-write-wins rule); in
particular the `R_10k` scenario with namespace `mylib` extracts to exactly
the record with `Symbol_Name`, `Symbol`, `Reference` and `Value` as the
specification states. -/
theorem C9_extractor_names :
    (∀ (lib : Option String) (name : String) (props : List (String × String)),
      (∀ p ∈ props, p.1 ≠ "Symbol_Name" ∧ p.1 ≠ "Symbol") →
      extract_symbols_from_sexp lib
          (SExp.list [SExp.list (SExp.str "symbol" :: SExp.str name ::
            props.map (fun p => SExp.list [SExp.str "property", SExp.str p.1, SExp.str p.2]))]) =
        [extract_one_symbol lib name
          (props.map (fun p => SExp.list [SExp.str "property", SExp.str p.1, SExp.str p.2]))] ∧
      (extract_one_symbol lib name
          (props.map (fun p => SExp.list [SExp.str "property", SExp.str p.1, SExp.str p.2]))).lookup
          "Symbol_Name" = some (some name) ∧
      (∀ l : String, lib = some l → l ≠ "" →
        (extract_one_symbol lib name
            (props.map (fun p => SExp.list [SExp.str "property", SExp.str p.1, SExp.str p.2]))).lookup
            "Symbol" = some (some (l ++ ":" ++ name))) ∧
      (lib = none →
        (extract_one_symbol lib name
            (props.map (fun p => SExp.list [SExp.str "property", SExp.str p.1, SExp.str p.2]))).lookup
            "Symbol" = some (some name)) ∧
      (lib = some "" →
        (extract_one_symbol lib name
            (props.map (fun p => SExp.list [SExp.str "property", SExp.str p.1, SExp.str p.2]))).lookup
            "Symbol" = some (some name))) ∧
    extract_symbols_from_sexp (some "mylib")
        (SExp.list [SExp.list [SExp.str "symbol", SExp.str "R_10k",
          SExp.list [SExp.str "property", SExp.str "Reference", SExp.str "R"],
          SExp.list [SExp.str "property", SExp.str "Value", SExp.str "10k"]]]) =
      [[("Symbol_Name", some "R_10k"), ("Symbol", some "mylib:R_10k"),
        ("Reference", some "R"), ("Value", some "10k")]] := by
  constructor
  · intro lib name props hprops
    refine ⟨?_, ?_, ?_, ?_, ?_⟩
    · simp only [extract_symbols_from_sexp, extract_items]
      simp
    · rw [extract_one_symbol_props]
      rw [lookup_foldl_sym_set _ _ _ (fun p hp => (hprops p hp).1)]
      rfl
    · intro l hl hne
      subst hl
      rw [extract_one_symbol_props]
      rw [lookup_foldl_sym_set _ _ _ (fun p hp => (hprops p hp).2)]
      simp [List.lookup, hne]
    · intro hl
      subst hl
      rw [extract_one_symbol_props]
      rw [lookup_foldl_sym_set _ _ _ (fun p hp => (hprops p hp).2)]
      rfl
    · intro hl
      subst hl
      rw [extract_one_symbol_props]
      rw [lookup_foldl_sym_set _ _ _ (fun p hp => (hprops p hp).2)]
      simp [List.lookup]
  · simp only [extract_symbols_from_sexp, extract_items]
    simp only [List.append_nil]
    decide

/-- Witness for C9: the general part evaluated at the `R_10k` scenario,
with a supplied namespace and with an absent namespace. -/
theorem C9_extractor_names_witness :
    (extract_one_symbol (some "mylib") "R_10k"
        ([("Reference", "R"), ("Value", "10k")].map
          (fun p => SExp.list [SExp.str "property", SExp.str p.1, SExp.str p.2]))).lookup
        "Symbol" = some (some ("mylib" ++ ":" ++ "R_10k")) ∧
    (extract_one_symbol none "R_10k"
        ([("Reference", "R"), ("Value", "10k")].map
          (fun p => SExp.list [SExp.str "property", SExp.str p.1, SExp.str p.2]))).lookup
        "Symbol" = some (some "R_10k") ∧
    (extract_one_symbol (some "mylib") "R_10k"
        ([("Reference", "R"), ("Value", "10k")].map
          (fun p => SExp.list [SExp.str "property", SExp.str p.1, SExp.str p.2]))).lookup
        "Symbol_Name" = some (some "R_10k") :=
  ⟨(C9_extractor_names.1 (some "mylib") "R_10k" [("Reference", "R"), ("Value", "10k")]
      (by decide)).2.2.1 "mylib" rfl (by decide),
   (C9_extractor_names.1 none "R_10k" [("Reference", "R"), ("Value", "10k")]
      (by decide)).2.2.2.1 rfl,
   (C9_extractor_names.1 (some "mylib") "R_10k" [("Reference", "R"), ("Value", "10k")]
      (by decide)).2.1⟩

/-! ### Claim C10 -/

/-- C10: parsing an input that is empty or consists only of whitespace
returns the null result (`None` in the source) and raises no error. -/
theorem C10_whitespace_parse_none (s : String)
    (h : ∀ c ∈ s.toList, py_isspace c = true) :
    parse s = Except.ok none := by
  have hws : skip_ws s.data = [] := by
    unfold skip_ws
    exact List.dropWhile_eq_nil_iff.mpr h
  have hpf : parse_fuel (2 * s.length + 2) s.toList = Except.ok (none, []) := by
    rw [show 2 * s.length + 2 = Nat.succ (2 * s.length + 1) from rfl]
    rw [parse_fuel]
    simp only [String.toList, hws]
  unfold parse
  rw [hpf]

/-- Witness for C10: blank input parses to the null result. -/
theorem C10_whitespace_parse_none_witness : parse " \n\t " = Except.ok none :=
  C10_whitespace_parse_none " \n\t " (by decide)

/-! ### Parser step lemmas -/

theorem parse_string_aux_quote (acc rest : List Char) :
    parse_string_aux acc (quoteChar :: rest) = Except.ok (String.mk acc.reverse, rest) := by
  rw [parse_string_aux.eq_def]
  dsimp only
  simp

theorem parse_string_aux_backslash (acc : List Char) (d : Char) (rest : List Char) :
    parse_string_aux acc (backslashChar :: d :: rest) = parse_string_aux (d :: acc) rest := by
  rw [parse_string_aux.eq_def]
  dsimp only
  rw [if_neg (by decide : ¬(backslashChar = quoteChar)), if_pos rfl]

theorem parse_string_aux_plain (acc : List Char) (c : Char) (rest : List Char)
    (h1 : c ≠ quoteChar) (h2 : c ≠ backslashChar) :
    parse_string_aux acc (c :: rest) = parse_string_aux (c :: acc) rest := by
  rw [parse_string_aux.eq_def]
  dsimp only
  rw [if_neg h1, if_neg h2]

/-- Parsing an input whose first character is a quote runs `parse_string`
over the remainder. -/
theorem parse_quote_start (rest : List Char) :
    parse (String.mk (quoteChar :: rest)) =
      match parse_string_aux [] rest with
      | Except.ok (s, _) => Except.ok (some (SExp.str s))
      | Except.error e => Except.error e := by
  rw [parse]
  rw [show 2 * (String.mk (quoteChar :: rest)).length + 2 =
        Nat.succ (2 * (String.mk (quoteChar :: rest)).length + 1) from rfl]
  rw [parse_fuel]
  simp only [String.toList, skip_ws, List.dropWhile_cons,
    (by decide : py_isspace quoteChar = false), Bool.false_eq_true, if_false,
    (by decide : ¬(quoteChar = '(')), eq_self_iff_true, if_true]
  rw [parse_string, if_pos rfl]
  cases parse_string_aux [] rest with
  | ok p =>
    obtain ⟨a, b⟩ := p
    rfl
  | error e => rfl

/-- Parsing an input whose first character is an open parenthesis runs the
list loop over the remainder. -/
theorem parse_open_list (rest : List Char) :
    parse (String.mk ('(' :: rest)) =
      match parse_list_fuel (2 * (String.mk ('(' :: rest)).length + 1) [] rest with
      | Except.ok (node, _) => Except.ok (some node)
      | Except.error e => Except.error e := by
  rw [parse]
  rw [show 2 * (String.mk ('(' :: rest)).length + 2 =
        Nat.succ (2 * (String.mk ('(' :: rest)).length + 1) from rfl]
  rw [parse_fuel]
  simp only [String.toList, skip_ws, List.dropWhile_cons,
    (by decide : py_isspace '(' = false), Bool.false_eq_true, if_false,
    eq_self_iff_true, if_true]
  cases parse_list_fuel (2 * (String.mk ('(' :: rest)).length + 1) [] rest with
  | ok p =>
    obtain ⟨a, b⟩ := p
    rfl
  | error e => rfl

/-! ### Claim C1 -/

/-- Inside a quoted string, characters that are neither a quote nor a
backslash are copied one by one into the accumulator. -/
theorem parse_string_aux_clean (l : List Char) (acc rest : List Char)
    (h : ∀ x ∈ l, x ≠ quoteChar ∧ x ≠ backslashChar) :
    parse_string_aux acc (l ++ rest) = parse_string_aux (l.reverse ++ acc) rest := by
  induction l generalizing acc with
  | nil => simp
  | cons c t ih =>
    have hc := h c (List.mem_cons_self c t)
    rw [List.cons_append, parse_string_aux_plain acc c _ hc.1 hc.2]
    rw [ih (c :: acc) (fun x hx => h x (List.mem_cons_of_mem c hx))]
    simp

/-- C1 (amended): inside a quoted string a backslash consumes the following
character, that character is kept verbatim in the literal content (no escape
interpretation), and the backslash itself is dropped.  Stated for a quoted
string whose other characters are plain. -/
theorem C1_backslash_consumed_not_kept (s1 s2 : List Char) (c : Char)
    (h1 : ∀ x ∈ s1, x ≠ quoteChar ∧ x ≠ backslashChar)
    (h2 : ∀ x ∈ s2, x ≠ quoteChar ∧ x ≠ backslashChar) :
    parse (String.mk (quoteChar :: (s1 ++ backslashChar :: c :: s2 ++ [quoteChar]))) =
      Except.ok (some (SExp.str (String.mk (s1 ++ c :: s2)))) := by
  have haux : parse_string_aux [] (s1 ++ backslashChar :: c :: s2 ++ [quoteChar]) =
      Except.ok (String.mk (s1 ++ c :: s2), []) := by
    rw [show s1 ++ backslashChar :: c :: s2 ++ [quoteChar] =
          s1 ++ (backslashChar :: c :: (s2 ++ [quoteChar])) by simp]
    rw [parse_string_aux_clean s1 [] _ h1]
    rw [parse_string_aux_backslash]
    rw [parse_string_aux_clean s2 _ _ h2]
    rw [parse_string_aux_quote]
    simp
  rw [parse_quote_start, haux]

/-- C1 as stated is false on the code: parsing the quoted string
`"a\nb"` yields the literal content `anb` — the backslash consumed the `n`
verbatim, but the backslash itself was dropped from the content, whereas the
claim requires both characters to be kept (`a\nb`). -/
theorem C1_counterexample :
    parse "\"a\\nb\"" = Except.ok (some (SExp.str "anb")) ∧
      ("anb" : String) ≠ "a\\nb" := by
  exact ⟨rfl, by decide⟩

/-- Witness for C1: the amended statement evaluated on that same input. -/
theorem C1_backslash_consumed_not_kept_witness :
    parse (String.mk (quoteChar :: (['a'] ++ backslashChar :: 'n' :: ['b'] ++ [quoteChar]))) =
      Except.ok (some (SExp.str (String.mk (['a'] ++ 'n' :: ['b'])))) :=
  C1_backslash_consumed_not_kept ['a'] ['b'] 'n' (by decide) (by decide)

/-! ### Claim C7

The simulation lemmas below relate the parser to the specification's
lexical scan `read_expr`, character by character, and close with the claim
theorem: every input classified as reaching end of input inside an
unterminated quoted value (resp. inside an unclosed list) makes `parse`
fail with `Unterminated string` (resp. `Unterminated list`). -/

theorem dropWhile_head_not (p : Char → Bool) (l : List Char) (c : Char)
    (r : List Char) (h : l.dropWhile p = c :: r) : p c = false := by
  induction l with
  | nil => simp at h
  | cons a t ih =>
    by_cases hp : p a = true
    · rw [List.dropWhile_cons, if_pos hp] at h
      exact ih h
    · rw [List.dropWhile_cons, if_neg hp] at h
      cases h
      simpa using hp

theorem skip_ws_cons_of_head (cs : List Char) (c : Char) (rest : List Char)
    (h : skip_ws cs = c :: rest) : skip_ws (c :: rest) = c :: rest := by
  have hcw : py_isspace c = false := dropWhile_head_not py_isspace cs c rest h
  unfold skip_ws
  rw [List.dropWhile_cons, if_neg (by simp [hcw])]

/-- One step of the scan at a token boundary. -/
theorem read_from_inList_cons (d : Nat) (c : Char) (rest : List Char) :
    read_from (ScanMode.inList d) (c :: rest) =
      if c = ')' then
        (if d = 1 then ReadResult.complete
         else read_from (ScanMode.inList (d - 1)) rest)
      else if c = '(' then read_from (ScanMode.inList (d + 1)) rest
      else if c = quoteChar then read_from (ScanMode.inString false d) rest
      else if py_isspace c then read_from (ScanMode.inList d) rest
      else read_from (ScanMode.inAtom d) rest := rfl

/-- One step of the scan inside a bare token. -/
theorem read_from_inAtom_cons (d : Nat) (c : Char) (rest : List Char) :
    read_from (ScanMode.inAtom d) (c :: rest) =
      if atom_char c then read_from (ScanMode.inAtom d) rest
      else if c = ')' then
        (if d = 1 then ReadResult.complete
         else read_from (ScanMode.inList (d - 1)) rest)
      else if c = '(' then read_from (ScanMode.inList (d + 1)) rest
      else read_from (ScanMode.inList d) rest := rfl

/-- One step of the scan inside a quoted value. -/
theorem read_from_inString_false_cons (d : Nat) (c : Char) (rest : List Char) :
    read_from (ScanMode.inString false d) (c :: rest) =
      if c = quoteChar then
        (if d = 0 then ReadResult.complete
         else read_from (ScanMode.inList d) rest)
      else if c = backslashChar then read_from (ScanMode.inString true d) rest
      else read_from (ScanMode.inString false d) rest := rfl

/-- A backslash-consumed character is skipped whatever it is. -/
theorem read_from_inString_true_cons (d : Nat) (c : Char) (rest : List Char) :
    read_from (ScanMode.inString true d) (c :: rest) =
      read_from (ScanMode.inString false d) rest := rfl

theorem not_delim_of_isspace (c : Char) (h : py_isspace c = true) :
    ¬(c = ')') ∧ ¬(c = '(') ∧ ¬(c = quoteChar) := by
  refine ⟨?_, ?_, ?_⟩ <;> intro he <;> subst he <;> exact absurd h (by decide)

/-- The scan at a token boundary ignores leading whitespace. -/
theorem read_from_inList_skip_ws (d : Nat) (cs : List Char) :
    read_from (ScanMode.inList d) cs =
      read_from (ScanMode.inList d) (skip_ws cs) := by
  induction cs with
  | nil => rfl
  | cons c rest ih =>
    by_cases hc : py_isspace c = true
    · have hd := not_delim_of_isspace c hc
      rw [show skip_ws (c :: rest) = skip_ws rest from by
        unfold skip_ws; rw [List.dropWhile_cons, if_pos hc]]
      rw [read_from_inList_cons, if_neg hd.1, if_neg hd.2.1, if_neg hd.2.2,
        if_pos hc]
      exact ih
    · rw [show skip_ws (c :: rest) = c :: rest from by
        unfold skip_ws; rw [List.dropWhile_cons, if_neg hc]]

theorem read_from_inList_congr (d : Nat) (cs cs2 : List Char)
    (h : skip_ws cs = cs2) :
    read_from (ScanMode.inList d) cs = read_from (ScanMode.inList d) cs2 := by
  rw [read_from_inList_skip_ws, h]

/-- Inside a bare token the scan consumes exactly the token's characters
and then behaves as at a token boundary. -/
theorem read_from_inAtom_eq (d : Nat) (cs : List Char) :
    read_from (ScanMode.inAtom d) cs =
      read_from (ScanMode.inList d) (cs.dropWhile atom_char) := by
  induction cs with
  | nil => rfl
  | cons c rest ih =>
    by_cases hc : atom_char c = true
    · rw [read_from_inAtom_cons, if_pos hc, List.dropWhile_cons, if_pos hc]
      exact ih
    · rw [List.dropWhile_cons, if_neg hc]
      rw [read_from_inAtom_cons, if_neg hc, read_from_inList_cons]
      by_cases h1 : c = ')'
      · rw [if_pos h1, if_pos h1]
      · rw [if_neg h1, if_neg h1]
        by_cases h2 : c = '('
        · rw [if_pos h2, if_pos h2]
        · rw [if_neg h2, if_neg h2]
          have hws : py_isspace c = true := by
            cases hpw : py_isspace c with
            | true => rfl
            | false => exact absurd (by unfold atom_char; simp [hpw, h1, h2]) hc
          have hq : ¬(c = quoteChar) := (not_delim_of_isspace c hws).2.2
          rw [if_neg hq, if_pos hws]

/-- A quoted value that closes is scanned to just after its closing quote. -/
theorem parse_string_aux_scan_ok :
    ∀ (n : Nat) (cs acc : List Char) (v : String) (rest2 : List Char),
    cs.length ≤ n →
    parse_string_aux acc cs = Except.ok (v, rest2) → ∀ d : Nat,
    read_from (ScanMode.inString false d) cs =
      if d = 0 then ReadResult.complete
      else read_from (ScanMode.inList d) rest2 := by
  intro n
  induction n with
  | zero =>
    intro cs acc v rest2 hlen h d
    have : cs = [] := List.eq_nil_of_length_eq_zero (Nat.le_zero.mp hlen)
    subst this
    exact absurd h (by simp [parse_string_aux])
  | succ n ih =>
    intro cs acc v rest2 hlen h d
    match cs with
    | [] => exact absurd h (by simp [parse_string_aux])
    | c :: t =>
      by_cases hq : c = quoteChar
      · subst hq
        rw [parse_string_aux_quote] at h
        have ht : t = rest2 := by
          simp only [Except.ok.injEq, Prod.mk.injEq] at h
          exact h.2
        subst ht
        rw [read_from_inString_false_cons, if_pos rfl]
      · by_cases hb : c = backslashChar
        · subst hb
          match t with
          | [] =>
            exact absurd h (by
              rw [parse_string_aux.eq_def]
              dsimp only
              rw [if_neg hq, if_pos rfl]
              simp)
          | c2 :: t2 =>
            rw [parse_string_aux_backslash] at h
            have := ih t2 (c2 :: acc) v rest2 (by simp at hlen; omega) h d
            rw [read_from_inString_false_cons, if_neg hq, if_pos rfl,
              read_from_inString_true_cons]
            exact this
        · rw [parse_string_aux_plain acc c t hq hb] at h
          have := ih t (c :: acc) v rest2 (by simp at hlen; omega) h d
          rw [read_from_inString_false_cons, if_neg hq, if_neg hb]
          exact this

/-- A quoted value that never closes raises exactly `Unterminated string`,
and the scan of its characters reaches end of input still inside it. -/
theorem parse_string_aux_scan_error :
    ∀ (n : Nat) (cs acc : List Char) (e : String), cs.length ≤ n →
    parse_string_aux acc cs = Except.error e →
    e = "Unterminated string" ∧ ∀ d : Nat,
      read_from (ScanMode.inString false d) cs = ReadResult.eofInString := by
  intro n
  induction n with
  | zero =>
    intro cs acc e hlen h
    have : cs = [] := List.eq_nil_of_length_eq_zero (Nat.le_zero.mp hlen)
    subst this
    refine ⟨?_, fun d => rfl⟩
    have h2 : parse_string_aux acc ([] : List Char) =
        Except.error "Unterminated string" := rfl
    rw [h2] at h
    injection h with h3
    exact h3.symm
  | succ n ih =>
    intro cs acc e hlen h
    match cs with
    | [] =>
      refine ⟨?_, fun d => rfl⟩
      have h2 : parse_string_aux acc ([] : List Char) =
          Except.error "Unterminated string" := rfl
      rw [h2] at h
      injection h with h3
      exact h3.symm
    | c :: t =>
      by_cases hq : c = quoteChar
      · subst hq
        rw [parse_string_aux_quote] at h
        simp at h
      · by_cases hb : c = backslashChar
        · subst hb
          match t with
          | [] =>
            have h2 : parse_string_aux acc [backslashChar] =
                Except.error "Unterminated string" := by
              rw [parse_string_aux.eq_def]
              dsimp only
              rw [if_neg hq, if_pos rfl]
            rw [h2] at h
            refine ⟨?_, fun d => ?_⟩
            · injection h with h3
              exact h3.symm
            · rw [read_from_inString_false_cons, if_neg hq, if_pos rfl]
              rfl
          | c2 :: t2 =>
            rw [parse_string_aux_backslash] at h
            have := ih t2 (c2 :: acc) e (by simp at hlen; omega) h
            refine ⟨this.1, fun d => ?_⟩
            rw [read_from_inString_false_cons, if_neg hq, if_pos rfl,
              read_from_inString_true_cons]
            exact this.2 d
        · rw [parse_string_aux_plain acc c t hq hb] at h
          have := ih t (c :: acc) e (by simp at hlen; omega) h
          refine ⟨this.1, fun d => ?_⟩
          rw [read_from_inString_false_cons, if_neg hq, if_neg hb]
          exact this.2 d

/-- Reading a quoted value consumes at least its closing quote. -/
theorem parse_string_aux_consumes :
    ∀ (n : Nat) (cs acc : List Char) (v : String) (rest2 : List Char),
    cs.length ≤ n →
    parse_string_aux acc cs = Except.ok (v, rest2) →
    rest2.length < cs.length := by
  intro n
  induction n with
  | zero =>
    intro cs acc v rest2 hlen h
    have : cs = [] := List.eq_nil_of_length_eq_zero (Nat.le_zero.mp hlen)
    subst this
    exact absurd h (by simp [parse_string_aux])
  | succ n ih =>
    intro cs acc v rest2 hlen h
    match cs with
    | [] => exact absurd h (by simp [parse_string_aux])
    | c :: t =>
      by_cases hq : c = quoteChar
      · subst hq
        rw [parse_string_aux_quote] at h
        have ht : t = rest2 := by
          simp only [Except.ok.injEq, Prod.mk.injEq] at h
          exact h.2
        subst ht
        simp
      · by_cases hb : c = backslashChar
        · subst hb
          match t with
          | [] =>
            exact absurd h (by
              rw [parse_string_aux.eq_def]
              dsimp only
              rw [if_neg hq, if_pos rfl]
              simp)
          | c2 :: t2 =>
            rw [parse_string_aux_backslash] at h
            have := ih t2 (c2 :: acc) v rest2 (by simp at hlen; omega) h
            simp only [List.length_cons]
            omega
        · rw [parse_string_aux_plain acc c t hq hb] at h
          have := ih t (c :: acc) v rest2 (by simp at hlen; omega) h
          simp only [List.length_cons]
          omega

theorem parse_fuel_succ_nil (f : Nat) (cs : List Char) (h : skip_ws cs = []) :
    parse_fuel (f + 1) cs = Except.ok (none, []) := by
  rw [parse_fuel, h]

theorem parse_fuel_succ_cons (f : Nat) (cs : List Char) (c : Char)
    (rest : List Char) (h : skip_ws cs = c :: rest) :
    parse_fuel (f + 1) cs =
      if c = '(' then
        match parse_list_fuel f [] rest with
        | Except.ok (node, rest2) => Except.ok (some node, rest2)
        | Except.error e => Except.error e
      else if c = quoteChar then
        match parse_string (c :: rest) with
        | Except.ok (v, rest2) => Except.ok (some (SExp.str v), rest2)
        | Except.error e => Except.error e
      else
        Except.ok (some (SExp.str (parse_atom (c :: rest)).1),
          (parse_atom (c :: rest)).2) := by
  rw [parse_fuel, h]

theorem parse_list_fuel_succ_nil (f : Nat) (acc : List SExp) (cs : List Char)
    (h : skip_ws cs = []) :
    parse_list_fuel (f + 1) acc cs = Except.error "Unterminated list" := by
  rw [parse_list_fuel, h]

theorem parse_list_fuel_succ_cons (f : Nat) (acc : List SExp) (cs : List Char)
    (c : Char) (rest : List Char) (h : skip_ws cs = c :: rest) :
    parse_list_fuel (f + 1) acc cs =
      if c = ')' then Except.ok (SExp.list acc.reverse, rest)
      else
        match parse_fuel f (c :: rest) with
        | Except.ok (some node, rest2) => parse_list_fuel f (node :: acc) rest2
        | Except.ok (none, _) => Except.error "unreachable"
        | Except.error e => Except.error e := by
  rw [parse_list_fuel, h]

theorem parse_string_quote (rest : List Char) :
    parse_string (quoteChar :: rest) = parse_string_aux [] rest := by
  unfold parse_string
  dsimp only
  rw [if_pos rfl]

/-- Reading one expression, or one list item, consumes at least one
character past the leading whitespace (the sole exception, an empty bare
token read at a stray `)`, is excluded by the head hypothesis). -/
theorem parse_consumes : ∀ fuel : Nat,
    (∀ (cs : List Char) (x : SExp) (rest2 : List Char),
      (skip_ws cs).head? ≠ some ')' →
      parse_fuel fuel cs = Except.ok (some x, rest2) →
      rest2.length < (skip_ws cs).length) ∧
    (∀ (acc : List SExp) (cs : List Char) (node : SExp) (rest2 : List Char),
      parse_list_fuel fuel acc cs = Except.ok (node, rest2) →
      rest2.length < (skip_ws cs).length) := by
  intro fuel
  induction fuel with
  | zero =>
    constructor
    · intro cs x rest2 _ h
      exact absurd h (by simp [parse_fuel])
    · intro acc cs node rest2 h
      exact absurd h (by simp [parse_list_fuel])
  | succ f ih =>
    constructor
    · intro cs x rest2 hnp h
      cases hsw : skip_ws cs with
      | nil =>
        rw [parse_fuel_succ_nil f cs hsw] at h
        simp at h
      | cons c rest =>
        rw [parse_fuel_succ_cons f cs c rest hsw] at h
        rw [hsw] at hnp
        have hc3 : ¬(c = ')') := by simpa using hnp
        by_cases h1 : c = '('
        · rw [if_pos h1] at h
          cases hpl : parse_list_fuel f [] rest with
          | ok p =>
            obtain ⟨n1, r2⟩ := p
            rw [hpl] at h
            dsimp only at h
            have hr : r2 = rest2 := by
              simp only [Except.ok.injEq, Prod.mk.injEq, Option.some.injEq] at h
              exact h.2
            subst hr
            have hlt := ih.2 [] rest n1 r2 hpl
            have hle : (skip_ws rest).length ≤ rest.length :=
              (List.dropWhile_sublist (l := rest) py_isspace).length_le
            simp only [List.length_cons]
            omega
          | error e =>
            rw [hpl] at h
            dsimp only at h
            simp at h
        · rw [if_neg h1] at h
          by_cases h2 : c = quoteChar
          · rw [if_pos h2] at h
            subst h2
            rw [parse_string_quote] at h
            cases hps : parse_string_aux [] rest with
            | ok p =>
              obtain ⟨v, r2⟩ := p
              rw [hps] at h
              dsimp only at h
              have hr : r2 = rest2 := by
                simp only [Except.ok.injEq, Prod.mk.injEq] at h
                exact h.2
              subst hr
              have := parse_string_aux_consumes rest.length rest [] v r2
                (Nat.le_refl _) hps
              simp only [List.length_cons]
              omega
            | error e =>
              rw [hps] at h
              dsimp only at h
              simp at h
          · rw [if_neg h2] at h
            have hr : rest2 = (parse_atom (c :: rest)).2 := by
              simp only [Except.ok.injEq, Prod.mk.injEq, Option.some.injEq] at h
              exact h.2.symm
            have hcw : py_isspace c = false :=
              dropWhile_head_not py_isspace cs c rest hsw
            have hac : atom_char c = true := by
              unfold atom_char
              simp [hcw, h1, hc3]
            have h4 : (parse_atom (c :: rest)).2 = rest.dropWhile atom_char := by
              have h5 : (parse_atom (c :: rest)).2 =
                  List.dropWhile atom_char (c :: rest) := rfl
              rw [h5, List.dropWhile_cons, if_pos hac]
            have hle : (rest.dropWhile atom_char).length ≤ rest.length :=
              (List.dropWhile_sublist (l := rest) atom_char).length_le
            rw [hr, h4]
            simp only [List.length_cons]
            omega
    · intro acc cs node rest2 h
      cases hsw : skip_ws cs with
      | nil =>
        rw [parse_list_fuel_succ_nil f acc cs hsw] at h
        simp at h
      | cons c rest =>
        rw [parse_list_fuel_succ_cons f acc cs c rest hsw] at h
        by_cases h1 : c = ')'
        · rw [if_pos h1] at h
          have hr : rest = rest2 := by
            simp only [Except.ok.injEq, Prod.mk.injEq] at h
            exact h.2
          subst hr
          simp
        · rw [if_neg h1] at h
          have hsw2 : skip_ws (c :: rest) = c :: rest :=
            skip_ws_cons_of_head cs c rest hsw
          cases hpf : parse_fuel f (c :: rest) with
          | ok p =>
            obtain ⟨o, r2⟩ := p
            cases o with
            | none =>
              rw [hpf] at h
              dsimp only at h
              simp at h
            | some n1 =>
              rw [hpf] at h
              dsimp only at h
              have hnp : (skip_ws (c :: rest)).head? ≠ some ')' := by
                rw [hsw2]
                simp [h1]
              have hr2 := ih.1 (c :: rest) n1 r2 hnp hpf
              rw [hsw2] at hr2
              have hrest := ih.2 (n1 :: acc) r2 node rest2 h
              have hle : (skip_ws r2).length ≤ r2.length :=
                (List.dropWhile_sublist (l := r2) py_isspace).length_le
              simp only [List.length_cons] at hr2 ⊢
              omega
          | error e =>
            rw [hpf] at h
            dsimp only at h
            simp at h

/-- With fuel at least twice the input length plus one (plus two for the
list loop), the fuel guard is never hit: the embedded parser's result never
is the artificial `out of fuel` error. -/
theorem parse_fuel_enough : ∀ fuel : Nat,
    (∀ cs : List Char, 2 * cs.length + 1 ≤ fuel →
      parse_fuel fuel cs ≠ Except.error "out of fuel") ∧
    (∀ (acc : List SExp) (cs : List Char), 2 * cs.length + 2 ≤ fuel →
      parse_list_fuel fuel acc cs ≠ Except.error "out of fuel") := by
  intro fuel
  induction fuel with
  | zero =>
    constructor
    · intro cs hb
      exact absurd hb (by omega)
    · intro acc cs hb
      exact absurd hb (by omega)
  | succ f ih =>
    constructor
    · intro cs hb
      cases hsw : skip_ws cs with
      | nil =>
        rw [parse_fuel_succ_nil f cs hsw]
        simp
      | cons c rest =>
        rw [parse_fuel_succ_cons f cs c rest hsw]
        have hlen : rest.length + 1 ≤ cs.length := by
          have h3 : (skip_ws cs).length ≤ cs.length :=
            (List.dropWhile_sublist (l := cs) py_isspace).length_le
          rw [hsw] at h3
          simpa using h3
        by_cases h1 : c = '('
        · rw [if_pos h1]
          cases hpl : parse_list_fuel f [] rest with
          | ok p =>
            obtain ⟨n1, r2⟩ := p
            dsimp only
            simp
          | error e =>
            dsimp only
            have := ih.2 [] rest (by omega)
            rw [hpl] at this
            have hne : e ≠ "out of fuel" := by
              intro hcontra
              rw [hcontra] at this
              exact this rfl
            intro hcontra
            injection hcontra with h3
            exact hne h3
        · rw [if_neg h1]
          by_cases h2 : c = quoteChar
          · rw [if_pos h2]
            subst h2
            rw [parse_string_quote]
            cases hps : parse_string_aux [] rest with
            | ok p =>
              obtain ⟨v, r2⟩ := p
              dsimp only
              simp
            | error e =>
              dsimp only
              have he := (parse_string_aux_scan_error rest.length rest [] e
                (Nat.le_refl _) hps).1
              subst he
              intro hcontra
              injection hcontra with h3
              exact absurd h3 (by decide)
          · rw [if_neg h2]
            simp
    · intro acc cs hb
      cases hsw : skip_ws cs with
      | nil =>
        rw [parse_list_fuel_succ_nil f acc cs hsw]
        intro hcontra
        injection hcontra with h3
        exact absurd h3 (by decide)
      | cons c rest =>
        rw [parse_list_fuel_succ_cons f acc cs c rest hsw]
        have hlen : rest.length + 1 ≤ cs.length := by
          have h3 : (skip_ws cs).length ≤ cs.length :=
            (List.dropWhile_sublist (l := cs) py_isspace).length_le
          rw [hsw] at h3
          simpa using h3
        by_cases h1 : c = ')'
        · rw [if_pos h1]
          simp
        · rw [if_neg h1]
          have hsw2 : skip_ws (c :: rest) = c :: rest :=
            skip_ws_cons_of_head cs c rest hsw
          cases hpf : parse_fuel f (c :: rest) with
          | ok p =>
            obtain ⟨o, r2⟩ := p
            cases o with
            | none =>
              dsimp only
              intro hcontra
              injection hcontra with h3
              exact absurd h3 (by decide)
            | some n1 =>
              dsimp only
              apply ih.2
              have hnp : (skip_ws (c :: rest)).head? ≠ some ')' := by
                rw [hsw2]
                simp [h1]
              have hr2 := (parse_consumes f).1 (c :: rest) n1 r2 hnp hpf
              rw [hsw2] at hr2
              simp only [List.length_cons] at hr2
              omega
          | error e =>
            dsimp only
            have := ih.1 (c :: rest) (by simp only [List.length_cons]; omega)
            rw [hpf] at this
            have hne : e ≠ "out of fuel" := by
              intro hcontra
              rw [hcontra] at this
              exact this rfl
            intro hcontra
            injection hcontra with h3
            exact hne h3

/-- The parser and the specification's scan walk the input in step: at a
token boundary inside `d` open lists, a successfully read item moves the
scan to its end, a `None` result means only whitespace remained, and an
`Unterminated string` / `Unterminated list` error means the scan reaches
end of input inside a quoted value / inside an open list; likewise for the
list loop, whose successful close pops one nesting level. -/
theorem parse_scan_sim : ∀ fuel : Nat,
    (∀ (cs : List Char) (d : Nat), 1 ≤ d →
      (∀ (x : SExp) (rest2 : List Char),
        parse_fuel fuel cs = Except.ok (some x, rest2) →
        read_from (ScanMode.inList d) cs =
          read_from (ScanMode.inList d) rest2) ∧
      (∀ rest2 : List Char,
        parse_fuel fuel cs = Except.ok (none, rest2) → skip_ws cs = []) ∧
      (∀ e : String, parse_fuel fuel cs = Except.error e →
        e = "out of fuel" ∨
        (e = "Unterminated string" ∧
          read_from (ScanMode.inList d) cs = ReadResult.eofInString) ∨
        (e = "Unterminated list" ∧
          read_from (ScanMode.inList d) cs = ReadResult.eofInList))) ∧
    (∀ (acc : List SExp) (cs : List Char) (d : Nat), 1 ≤ d →
      (∀ (node : SExp) (rest2 : List Char),
        parse_list_fuel fuel acc cs = Except.ok (node, rest2) →
        read_from (ScanMode.inList d) cs =
          if d = 1 then ReadResult.complete
          else read_from (ScanMode.inList (d - 1)) rest2) ∧
      (∀ e : String, parse_list_fuel fuel acc cs = Except.error e →
        e = "out of fuel" ∨
        (e = "Unterminated string" ∧
          read_from (ScanMode.inList d) cs = ReadResult.eofInString) ∨
        (e = "Unterminated list" ∧
          read_from (ScanMode.inList d) cs = ReadResult.eofInList))) := by
  intro fuel
  induction fuel with
  | zero =>
    constructor
    · intro cs d _
      refine ⟨?_, ?_, ?_⟩
      · intro x rest2 h
        exact absurd h (by simp [parse_fuel])
      · intro rest2 h
        exact absurd h (by simp [parse_fuel])
      · intro e h
        left
        simp only [parse_fuel] at h
        injection h with h2
        exact h2.symm
    · intro acc cs d _
      refine ⟨?_, ?_⟩
      · intro node rest2 h
        exact absurd h (by simp [parse_list_fuel])
      · intro e h
        left
        simp only [parse_list_fuel] at h
        injection h with h2
        exact h2.symm
  | succ f ih =>
    constructor
    · intro cs d hd
      refine ⟨?_, ?_, ?_⟩
      · intro x rest2 h
        cases hsw : skip_ws cs with
        | nil =>
          rw [parse_fuel_succ_nil f cs hsw] at h
          simp at h
        | cons c rest =>
          rw [parse_fuel_succ_cons f cs c rest hsw] at h
          rw [read_from_inList_congr d cs (c :: rest) hsw]
          by_cases h1 : c = '('
          · rw [if_pos h1] at h
            cases hpl : parse_list_fuel f [] rest with
            | ok p =>
              obtain ⟨n1, r2⟩ := p
              rw [hpl] at h
              dsimp only at h
              have hr : r2 = rest2 := by
                simp only [Except.ok.injEq, Prod.mk.injEq, Option.some.injEq] at h
                exact h.2
              subst hr
              subst h1
              rw [read_from_inList_cons, if_neg (by decide : ¬('(' = ')')),
                if_pos rfl]
              have hq := (ih.2 [] rest (d + 1) (by omega)).1 n1 r2 hpl
              rw [if_neg (by omega : ¬(d + 1 = 1))] at hq
              rw [show d + 1 - 1 = d from by omega] at hq
              exact hq
            | error e =>
              rw [hpl] at h
              dsimp only at h
              simp at h
          · rw [if_neg h1] at h
            by_cases h2 : c = quoteChar
            · rw [if_pos h2] at h
              subst h2
              rw [parse_string_quote] at h
              cases hps : parse_string_aux [] rest with
              | ok p =>
                obtain ⟨v, r2⟩ := p
                rw [hps] at h
                dsimp only at h
                have hr : r2 = rest2 := by
                  simp only [Except.ok.injEq, Prod.mk.injEq] at h
                  exact h.2
                subst hr
                rw [read_from_inList_cons, if_neg (by decide : ¬(quoteChar = ')')),
                  if_neg (by decide : ¬(quoteChar = '(')), if_pos rfl]
                have hq := parse_string_aux_scan_ok rest.length rest [] v r2
                  (Nat.le_refl _) hps d
                rw [if_neg (by omega : ¬(d = 0))] at hq
                exact hq
              | error e =>
                rw [hps] at h
                dsimp only at h
                simp at h
            · rw [if_neg h2] at h
              have hr : rest2 = (parse_atom (c :: rest)).2 := by
                simp only [Except.ok.injEq, Prod.mk.injEq, Option.some.injEq] at h
                exact h.2.symm
              have hcw : py_isspace c = false :=
                dropWhile_head_not py_isspace cs c rest hsw
              by_cases h3 : c = ')'
              · have h4 : (parse_atom (c :: rest)).2 = c :: rest := by
                  subst h3
                  have h5 : (parse_atom (')' :: rest)).2 =
                      List.dropWhile atom_char (')' :: rest) := rfl
                  rw [h5, List.dropWhile_cons,
                    if_neg (by decide : ¬(atom_char ')' = true))]
                rw [hr, h4]
              · have hac : atom_char c = true := by
                  unfold atom_char
                  simp [hcw, h1, h3]
                rw [read_from_inList_cons, if_neg h3, if_neg h1, if_neg h2,
                  if_neg (by simp [hcw])]
                rw [read_from_inAtom_eq]
                have h4 : (parse_atom (c :: rest)).2 = rest.dropWhile atom_char := by
                  have h5 : (parse_atom (c :: rest)).2 =
                      List.dropWhile atom_char (c :: rest) := rfl
                  rw [h5, List.dropWhile_cons, if_pos hac]
                rw [hr, h4]
      · intro rest2 h
        cases hsw : skip_ws cs with
        | nil => rfl
        | cons c rest =>
          rw [parse_fuel_succ_cons f cs c rest hsw] at h
          by_cases h1 : c = '('
          · rw [if_pos h1] at h
            cases hpl : parse_list_fuel f [] rest with
            | ok p =>
              obtain ⟨n1, r2⟩ := p
              rw [hpl] at h
              dsimp only at h
              simp at h
            | error e =>
              rw [hpl] at h
              dsimp only at h
              simp at h
          · rw [if_neg h1] at h
            by_cases h2 : c = quoteChar
            · rw [if_pos h2] at h
              cases hps : parse_string (c :: rest) with
              | ok p =>
                obtain ⟨v, r2⟩ := p
                rw [hps] at h
                dsimp only at h
                simp at h
              | error e =>
                rw [hps] at h
                dsimp only at h
                simp at h
            · rw [if_neg h2] at h
              simp at h
      · intro e h
        cases hsw : skip_ws cs with
        | nil =>
          rw [parse_fuel_succ_nil f cs hsw] at h
          simp at h
        | cons c rest =>
          rw [parse_fuel_succ_cons f cs c rest hsw] at h
          have hchain := read_from_inList_congr d cs (c :: rest) hsw
          by_cases h1 : c = '('
          · rw [if_pos h1] at h
            cases hpl : parse_list_fuel f [] rest with
            | ok p =>
              obtain ⟨n1, r2⟩ := p
              rw [hpl] at h
              dsimp only at h
              simp at h
            | error e2 =>
              rw [hpl] at h
              dsimp only at h
              have he : e2 = e := by
                injection h with h3
              subst he
              subst h1
              have hstep : read_from (ScanMode.inList d) ('(' :: rest) =
                  read_from (ScanMode.inList (d + 1)) rest := by
                rw [read_from_inList_cons, if_neg (by decide : ¬('(' = ')')),
                  if_pos rfl]
              rw [hchain, hstep]
              exact (ih.2 [] rest (d + 1) (by omega)).2 e2 hpl
          · rw [if_neg h1] at h
            by_cases h2 : c = quoteChar
            · rw [if_pos h2] at h
              subst h2
              rw [parse_string_quote] at h
              cases hps : parse_string_aux [] rest with
              | ok p =>
                obtain ⟨v, r2⟩ := p
                rw [hps] at h
                dsimp only at h
                simp at h
              | error e2 =>
                rw [hps] at h
                dsimp only at h
                have he : e2 = e := by
                  injection h with h3
                subst he
                have hq := parse_string_aux_scan_error rest.length rest [] e2
                  (Nat.le_refl _) hps
                right
                left
                refine ⟨hq.1, ?_⟩
                rw [hchain, read_from_inList_cons,
                  if_neg (by decide : ¬(quoteChar = ')')),
                  if_neg (by decide : ¬(quoteChar = '(')), if_pos rfl]
                exact hq.2 d
            · rw [if_neg h2] at h
              simp at h
    · intro acc cs d hd
      refine ⟨?_, ?_⟩
      · intro node rest2 h
        cases hsw : skip_ws cs with
        | nil =>
          rw [parse_list_fuel_succ_nil f acc cs hsw] at h
          simp at h
        | cons c rest =>
          rw [parse_list_fuel_succ_cons f acc cs c rest hsw] at h
          have hchain := read_from_inList_congr d cs (c :: rest) hsw
          by_cases h1 : c = ')'
          · rw [if_pos h1] at h
            have hr : rest = rest2 := by
              simp only [Except.ok.injEq, Prod.mk.injEq] at h
              exact h.2
            subst hr
            subst h1
            rw [hchain, read_from_inList_cons, if_pos rfl]
          · rw [if_neg h1] at h
            cases hpf : parse_fuel f (c :: rest) with
            | ok p =>
              obtain ⟨o, r2⟩ := p
              cases o with
              | none =>
                rw [hpf] at h
                dsimp only at h
                simp at h
              | some n1 =>
                rw [hpf] at h
                dsimp only at h
                have hstep := (ih.1 (c :: rest) d hd).1 n1 r2 hpf
                have hq := (ih.2 (n1 :: acc) r2 d hd).1 node rest2 h
                rw [hchain, hstep]
                exact hq
            | error e2 =>
              rw [hpf] at h
              dsimp only at h
              simp at h
      · intro e h
        cases hsw : skip_ws cs with
        | nil =>
          rw [parse_list_fuel_succ_nil f acc cs hsw] at h
          have he : "Unterminated list" = e := by
            injection h with h3
          right
          right
          refine ⟨he.symm, ?_⟩
          rw [read_from_inList_congr d cs [] hsw]
          rfl
        | cons c rest =>
          rw [parse_list_fuel_succ_cons f acc cs c rest hsw] at h
          have hchain := read_from_inList_congr d cs (c :: rest) hsw
          by_cases h1 : c = ')'
          · rw [if_pos h1] at h
            simp at h
          · rw [if_neg h1] at h
            have hsw2 : skip_ws (c :: rest) = c :: rest :=
              skip_ws_cons_of_head cs c rest hsw
            cases hpf : parse_fuel f (c :: rest) with
            | ok p =>
              obtain ⟨o, r2⟩ := p
              cases o with
              | none =>
                have h5 := (ih.1 (c :: rest) d hd).2.1 r2 hpf
                rw [hsw2] at h5
                simp at h5
              | some n1 =>
                rw [hpf] at h
                dsimp only at h
                have hstep := (ih.1 (c :: rest) d hd).1 n1 r2 hpf
                have hq := (ih.2 (n1 :: acc) r2 d hd).2 e h
                rw [hchain, hstep]
                exact hq
            | error e2 =>
              rw [hpf] at h
              dsimp only at h
              have he : e2 = e := by
                injection h with h3
              subst he
              have hq := (ih.1 (c :: rest) d hd).2.2 e2 hpf
              rw [hchain]
              exact hq

/-- C7 (amended): every input whose first expression reaches end of input
inside an unterminated quoted string fails with `Unterminated string`, and
every input whose first expression reaches end of input inside an unclosed
list fails with `Unterminated list` — in both cases `parse` returns an
error and no partial tree.  The classification `read_expr` is the
specification's lexical scan and covers every input, including escaped
quotes, arbitrarily nested unclosed lists, and unterminated strings inside
lists.  (An unmatched closing parenthesis, by contrast, is not an error,
and unmatched parentheses after the first complete expression are never
examined: see the counterexample.) -/
theorem C7_unterminated_errors (s : String) :
    (read_expr s.toList = ReadResult.eofInString →
      parse s = Except.error "Unterminated string") ∧
    (read_expr s.toList = ReadResult.eofInList →
      parse s = Except.error "Unterminated list") := by
  have hsl : s.toList.length = s.length := rfl
  unfold parse
  cases hsw : skip_ws s.toList with
  | nil =>
    have hre : read_expr s.toList = ReadResult.noExpr := by
      unfold read_expr
      rw [hsw]
    rw [hre]
    constructor <;> intro hcontra <;> exact absurd hcontra (by decide)
  | cons c rest =>
    have hre : read_expr s.toList =
        (if c = '(' then read_from (ScanMode.inList 1) rest
         else if c = quoteChar then read_from (ScanMode.inString false 0) rest
         else ReadResult.complete) := by
      unfold read_expr
      rw [hsw]
    have hlen2 : rest.length + 1 ≤ s.length := by
      have h3 : (skip_ws s.toList).length ≤ s.toList.length :=
        (List.dropWhile_sublist (l := s.toList) py_isspace).length_le
      rw [hsw] at h3
      simp only [List.length_cons] at h3
      omega
    rw [hre]
    rw [show 2 * s.length + 2 = (2 * s.length + 1) + 1 from rfl]
    rw [parse_fuel_succ_cons (2 * s.length + 1) s.toList c rest hsw]
    by_cases h1 : c = '('
    · rw [if_pos h1, if_pos h1]
      cases hpl : parse_list_fuel (2 * s.length + 1) [] rest with
      | ok p =>
        obtain ⟨n1, r2⟩ := p
        dsimp only
        have hq := ((parse_scan_sim (2 * s.length + 1)).2 [] rest 1
          (by omega)).1 n1 r2 hpl
        rw [if_pos rfl] at hq
        rw [hq]
        constructor <;> intro hcontra <;> exact absurd hcontra (by decide)
      | error e =>
        dsimp only
        have hoof := (parse_fuel_enough (2 * s.length + 1)).2 [] rest (by omega)
        rw [hpl] at hoof
        have hq := ((parse_scan_sim (2 * s.length + 1)).2 [] rest 1
          (by omega)).2 e hpl
        rcases hq with hq | ⟨he, hq⟩ | ⟨he, hq⟩
        · exact absurd (by rw [hq]) hoof
        · subst he
          rw [hq]
          constructor
          · intro _
            rfl
          · intro hcontra
            exact absurd hcontra (by decide)
        · subst he
          rw [hq]
          constructor
          · intro hcontra
            exact absurd hcontra (by decide)
          · intro _
            rfl
    · rw [if_neg h1, if_neg h1]
      by_cases h2 : c = quoteChar
      · rw [if_pos h2, if_pos h2]
        subst h2
        rw [parse_string_quote]
        cases hps : parse_string_aux [] rest with
        | ok p =>
          obtain ⟨v, r2⟩ := p
          dsimp only
          have hq := parse_string_aux_scan_ok rest.length rest [] v r2
            (Nat.le_refl _) hps 0
          rw [if_pos rfl] at hq
          rw [hq]
          constructor <;> intro hcontra <;> exact absurd hcontra (by decide)
        | error e =>
          dsimp only
          have hq := parse_string_aux_scan_error rest.length rest [] e
            (Nat.le_refl _) hps
          rw [hq.2 0, hq.1]
          constructor
          · intro _
            rfl
          · intro hcontra
            exact absurd hcontra (by decide)
      · rw [if_neg h2, if_neg h2]
        dsimp only
        constructor <;> intro hcontra <;> exact absurd hcontra (by decide)

/-- C7 as stated is false on the code: the inputs `)` and `a (` both have
unmatched parentheses, yet `parse` succeeds on them — a leading close
parenthesis is read as an empty atom, and everything after the first parsed
expression (including an unterminated open list) is never examined. -/
theorem C7_counterexample :
    parse ")" = Except.ok (some (SExp.str "")) ∧
      parse "a (" = Except.ok (some (SExp.str "a")) :=
  ⟨rfl, rfl⟩

/-- Witness for C7: the amended statement evaluated on concrete inputs
exercising an escaped quote inside an unterminated string, a nested
unclosed list, and an unterminated string inside a list. -/
theorem C7_unterminated_errors_witness :
    parse (String.mk [quoteChar, 'a', backslashChar, quoteChar, 'b']) =
        Except.error "Unterminated string" ∧
    parse (String.mk ['(', '(', 'a', ')']) = Except.error "Unterminated list" ∧
    parse (String.mk ['(', 'a', ' ', quoteChar, 'b']) =
        Except.error "Unterminated string" :=
  ⟨(C7_unterminated_errors
      (String.mk [quoteChar, 'a', backslashChar, quoteChar, 'b'])).1 (by decide),
   (C7_unterminated_errors (String.mk ['(', '(', 'a', ')'])).2 (by decide),
   (C7_unterminated_errors (String.mk ['(', 'a', ' ', quoteChar, 'b'])).1
     (by decide)⟩

/-! ### Sorting membership lemmas -/

theorem mem_insert_by {α : Type} (le : α → α → Bool) (a b : α) (l : List α) :
    b ∈ insert_by le a l ↔ b = a ∨ b ∈ l := by
  induction l with
  | nil => simp [insert_by]
  | cons c t ih =>
    unfold insert_by
    by_cases h : le a c = true
    · simp [h, List.mem_cons]
    · simp only [h, Bool.false_eq_true, if_false, List.mem_cons, ih]
      tauto

theorem mem_sort_by {α : Type} (le : α → α → Bool) (l : List α) (b : α) :
    b ∈ sort_by le l ↔ b ∈ l := by
  induction l with
  | nil => simp [sort_by]
  | cons c t ih =>
    unfold sort_by at ih ⊢
    rw [List.foldr_cons, mem_insert_by]
    simp [ih]

/-! ### Claim C4 -/

theorem qualifying_pair_pos (r : DbRow) (ps : Nat × String)
    (h : qualifying_pair r = some ps) :
    0 < ps.1 ∧ ps.2 ≠ "" ∧ ps.1 = r.dump_priority ∧ r.source = some ps.2 := by
  unfold qualifying_pair at h
  by_cases hp : 0 < r.dump_priority
  · rw [if_pos hp] at h
    cases hs : r.source with
    | none => rw [hs] at h; simp at h
    | some src =>
      rw [hs] at h
      dsimp only at h
      by_cases he : src = ""
      · rw [if_pos he] at h; simp at h
      · rw [if_neg he] at h
        injection h with hh
        subst hh
        exact ⟨hp, he, rfl, rfl⟩
  · rw [if_neg hp] at h; simp at h

/-- Every group pair chosen by `get_table_dump_info` has a positive priority
and a non-empty source (this includes the `(1, 'static')` fallback). -/
theorem dump_info_pairs_pos (t : DbTable) :
    ∀ ps ∈ (get_table_dump_info t).1, 0 < ps.1 ∧ ps.2 ≠ "" := by
  intro ps hps
  unfold get_table_dump_info at hps
  cases hr : dump_info_pairs t with
  | nil =>
    rw [hr] at hps
    simp only at hps
    rcases List.mem_singleton.mp hps with rfl
    exact ⟨by decide, by decide⟩
  | cons p rest =>
    rw [hr] at hps
    simp only at hps
    have : ps ∈ dump_info_pairs t := by rw [hr]; exact hps
    have hq : ps ∈ t.rows.filterMap qualifying_pair := by
      have := (mem_sort_by pair_le _ ps).mp this
      exact List.mem_dedup.mp this
    obtain ⟨r, _, hqp⟩ := List.mem_filterMap.mp hq
    have := qualifying_pair_pos r ps hqp
    exact ⟨this.1, this.2.1⟩

/-- C4: a row whose priority is `0`, or whose source is absent or empty,
appears in no artifact (neither the schema artifact nor any persisted data
artifact) produced by the dumper for its table. -/
theorem C4_priority_zero_source_empty_excluded (t : DbTable) (r : DbRow)
    (hmem : r ∈ t.rows)
    (hbad : r.dump_priority = 0 ∨ r.source = none ∨ r.source = some "") :
    ∀ a ∈ dump_table t, r ∉ a.rows := by
  intro a ha
  unfold dump_table at ha
  rcases List.mem_cons.mp ha with rfl | hdata
  · simp
  · obtain ⟨ps, hps, hmk⟩ := List.mem_filterMap.mp hdata
    by_cases he : (data_rows t ps.1 ps.2).isEmpty
    · rw [if_pos he] at hmk
      simp at hmk
    · rw [if_neg he] at hmk
      injection hmk with hmk
      subst hmk
      intro hr
      simp only at hr
      have hfil : r ∈ t.rows.filter
          (fun q => q.dump_priority == ps.1 && q.source == some ps.2) := by
        have := (mem_sort_by row_le _ r).mp hr
        exact this
      have hcond := (List.mem_filter.mp hfil).2
      rw [Bool.and_eq_true] at hcond
      have hpe : r.dump_priority = ps.1 := eq_of_beq hcond.1
      have hse : r.source = some ps.2 := eq_of_beq hcond.2
      have hpos := dump_info_pairs_pos t ps hps
      rcases hbad with h0 | hnone | hempty
      · rw [h0] at hpe
        omega
      · rw [hnone] at hse
        simp at hse
      · rw [hempty] at hse
        injection hse with hse
        exact hpos.2 hse.symm

/-- Witness for C4: in a concrete table, the priority-0 row is absent from
the one persisted data artifact the dumper produces. -/
theorem C4_priority_zero_source_empty_excluded_witness :
    ({ key := "c", dump_priority := 0, source := some "static",
       vals := [SqlValue.text "c"] } : DbRow) ∉
      ({ filename := "resistors_3_data.sql", priority := 3,
         rows := [{ key := "a", dump_priority := 3, source := some "static",
                    vals := [SqlValue.text "a"] }] } : Artifact).rows :=
  C4_priority_zero_source_empty_excluded
    { name := "resistors",
      rows := [
        { key := "a", dump_priority := 3, source := some "static", vals := [SqlValue.text "a"] },
        { key := "c", dump_priority := 0, source := some "static", vals := [SqlValue.text "c"] }] }
    { key := "c", dump_priority := 0, source := some "static", vals := [SqlValue.text "c"] }
    (by decide) (Or.inl rfl)
    { filename := "resistors_3_data.sql", priority := 3,
      rows := [{ key := "a", dump_priority := 3, source := some "static",
                 vals := [SqlValue.text "a"] }] }
    (by decide)

/-! ### Claim C2 -/

/-- C2 as stated is false on the code in two ways.  First, value resolution
takes the first non-`None` candidate, not the first non-empty one: with raw
fields `A` (own-named) holding `""` and `B` (renamed onto column `A`)
holding `"x"`, the resolved value is the empty string, not `"x"`.  Second,
the remaining ties are broken by the mapping's field-list order, which moves
`Symbol_Name` to the front: with both `Symbol_Name` and `Aaa` renamed onto
column `Zzz`, the value of `Symbol_Name` (`"S1"`) wins although ascending
raw-name order would try `Aaa` (`"x"`) first. -/
theorem C2_counterexample :
    prepare_symbol_values [("A", some ""), ("B", some "x")]
        (create_field_mapping ["A", "B"] [("B", "A")] []) = [("A", some "")] ∧
    ("" : String) ≠ "x" ∧
    prepare_symbol_values [("Symbol_Name", some "S1"), ("Aaa", some "x")]
        (create_field_mapping ["Symbol_Name", "Aaa"]
          [("Symbol_Name", "Zzz"), ("Aaa", "Zzz")] []) = [("Zzz", some "S1")] ∧
    ("S1" : String) ≠ "x" := by
  exact ⟨by decide, by decide, by decide, by decide⟩

/-- C2 (amended): for every record and every canonical column, value
resolution collects all raw fields whose raw name maps to that column
(case-insensitively on the sanitized target) and chooses the first
non-`None` value, with candidates ordered so that raw fields whose own
sanitized name equals the canonical column name come first and remaining
ties follow the mapping's field-list order — ascending raw-name order except
that `Symbol_Name` is placed first; if no candidate yields a non-`None`
value the column's value is absent.  Stated as: the code's resolution
(`prepare_symbol_values` over the mapping built by `create_field_mapping`)
coincides with the resolution described in those words
(`claim_value_resolution`). -/
theorem C2_value_resolution (symbol : Symbol) (fields : List String)
    (nm : List (String × String)) (mp : List MappingPattern) :
    prepare_symbol_values symbol (create_field_mapping fields nm mp) =
      claim_value_resolution symbol fields nm mp := by
  unfold prepare_symbol_values claim_value_resolution create_field_mapping claim_candidates
  simp only [List.map_map, List.filter_map, List.find?_map, Function.comp_def]
  dsimp only
  apply List.map_congr_left
  intro colL _
  cases hf : List.find? (fun f => decide (py_lower (sanitize (rename_field nm mp f)) = colL))
      (py_field_list fields) <;>
    simp [hf, List.map_id']

/-! ### Decimal representation theory (for claim C3) -/

theorem natDecimalAux_fuel_irrelevant :
    ∀ (f g n : Nat), n < f → n < g → natDecimalAux f n = natDecimalAux g n := by
  intro f
  induction f with
  | zero => intro g n hf; omega
  | succ f ih =>
    intro g n hf hg
    obtain ⟨g', rfl⟩ : ∃ g', g = Nat.succ g' := ⟨g - 1, by omega⟩
    rw [natDecimalAux, natDecimalAux]
    by_cases h : n < 10
    · simp [h]
    · rw [if_neg h, if_neg h]
      have hdiv : n / 10 < n := Nat.div_lt_self (by omega) (by omega)
      rw [ih g' (n / 10) (by omega) (by omega)]

/-- The defining recurrence of the decimal representation. -/
theorem natDecimal_eq (n : Nat) :
    natDecimal n =
      if n < 10 then [decChar n] else natDecimal (n / 10) ++ [decChar (n % 10)] := by
  unfold natDecimal
  rw [show n + 1 = Nat.succ n from rfl, natDecimalAux]
  by_cases h : n < 10
  · simp [h]
  · rw [if_neg h, if_neg h]
    have hdiv : n / 10 < n := Nat.div_lt_self (by omega) (by omega)
    rw [natDecimalAux_fuel_irrelevant n (n / 10 + 1) (n / 10) (by omega) (by omega)]

theorem natDecimal_ne_nil (n : Nat) : natDecimal n ≠ [] := by
  rw [natDecimal_eq]
  by_cases h : n < 10 <;> simp [h]

theorem natDecimal_length_pos (n : Nat) : 0 < (natDecimal n).length :=
  List.length_pos.mpr (natDecimal_ne_nil n)

theorem natDecimal_digits (n : Nat) :
    ∀ c ∈ natDecimal n, ∃ d, d < 10 ∧ c = decChar d := by
  induction n using Nat.strong_induction_on with
  | _ n ih =>
    rw [natDecimal_eq]
    by_cases h : n < 10
    · rw [if_pos h]
      intro c hc
      rcases List.mem_singleton.mp hc with rfl
      exact ⟨n, h, rfl⟩
    · rw [if_neg h]
      intro c hc
      rcases List.mem_append.mp hc with hl | hr
      · have hdiv : n / 10 < n := Nat.div_lt_self (by omega) (by omega)
        exact ih (n / 10) hdiv c hl
      · rcases List.mem_singleton.mp hr with rfl
        exact ⟨n % 10, Nat.mod_lt n (by omega), rfl⟩

theorem decChar_toNat : ∀ d, d < 10 → (decChar d).toNat = 48 + d := by decide

/-- A decimal digit character: code point between `48` and `57`. -/
def is_digit (c : Char) : Prop := 48 ≤ c.toNat ∧ c.toNat < 58

theorem natDecimal_all_digits (n : Nat) : ∀ c ∈ natDecimal n, is_digit c := by
  intro c hc
  obtain ⟨d, hd, rfl⟩ := natDecimal_digits n c hc
  rw [is_digit, decChar_toNat d hd]
  omega

/-- Big-endian value of a digit string. -/
def digitsVal : List Char → Nat
  | [] => 0
  | c :: l => (c.toNat - 48) * 10 ^ l.length + digitsVal l

theorem digitsVal_append_single (l : List Char) (c : Char) :
    digitsVal (l ++ [c]) = 10 * digitsVal l + (c.toNat - 48) := by
  induction l with
  | nil => simp [digitsVal]
  | cons a t ih =>
    rw [List.cons_append]
    simp only [digitsVal, ih, List.length_append, List.length_cons,
      List.length_nil]
    rw [show t.length + (0 + 1) = t.length + 1 by omega, pow_succ]
    ring

theorem digitsVal_natDecimal (n : Nat) : digitsVal (natDecimal n) = n := by
  induction n using Nat.strong_induction_on with
  | _ n ih =>
    rw [natDecimal_eq]
    by_cases h : n < 10
    · rw [if_pos h]
      simp [digitsVal, decChar_toNat n h]
    · rw [if_neg h]
      have hdiv : n / 10 < n := Nat.div_lt_self (by omega) (by omega)
      rw [digitsVal_append_single, ih (n / 10) hdiv,
        decChar_toNat (n % 10) (Nat.mod_lt n (by omega))]
      omega

theorem digitsVal_lt_pow (l : List Char) (h : ∀ c ∈ l, is_digit c) :
    digitsVal l < 10 ^ l.length := by
  induction l with
  | nil => simp [digitsVal]
  | cons c t ih =>
    have hc := h c (List.mem_cons_self c t)
    have ht := ih (fun x hx => h x (List.mem_cons_of_mem c hx))
    simp only [digitsVal, List.length_cons]
    have h9 : c.toNat - 48 ≤ 9 := by
      rcases hc with ⟨h1, h2⟩
      omega
    calc (c.toNat - 48) * 10 ^ t.length + digitsVal t
        < (c.toNat - 48) * 10 ^ t.length + 10 ^ t.length := by omega
      _ = (c.toNat - 48 + 1) * 10 ^ t.length := by ring
      _ ≤ 10 * 10 ^ t.length := Nat.mul_le_mul_right _ (by omega)
      _ = 10 ^ (t.length + 1) := by rw [pow_succ]; ring

theorem natDecimal_length_eq_digits (n : Nat) (h : 0 < n) :
    (natDecimal n).length = (Nat.digits 10 n).length := by
  induction n using Nat.strong_induction_on with
  | _ n ih =>
    rw [natDecimal_eq, Nat.digits_def' (by norm_num : (1:Nat) < 10) h]
    by_cases h10 : n < 10
    · rw [if_pos h10]
      have : n / 10 = 0 := Nat.div_eq_of_lt h10
      simp [this]
    · rw [if_neg h10]
      have hdiv : n / 10 < n := Nat.div_lt_self (by omega) (by omega)
      have hpos : 0 < n / 10 := Nat.div_pos (by omega) (by omega)
      simp only [List.length_append, List.length_cons, List.length_nil]
      rw [ih (n / 10) hdiv hpos]

theorem natDecimal_length_mono {p q : Nat} (h : p ≤ q) :
    (natDecimal p).length ≤ (natDecimal q).length := by
  by_cases hp : p = 0
  · subst hp
    have : (natDecimal 0).length = 1 := by rw [natDecimal_eq]; simp
    rw [this]
    exact natDecimal_length_pos q
  · have hq : 0 < q := by omega
    rw [natDecimal_length_eq_digits p (by omega), natDecimal_length_eq_digits q hq]
    rw [Nat.digits_len 10 p (by norm_num) (by omega),
      Nat.digits_len 10 q (by norm_num) (by omega)]
    have := Nat.log_mono_right (b := 10) h
    omega

/-! ### Lexicographic comparison of equal-length digit strings -/

theorem digit_lists_lt (l1 : List Char) :
    ∀ l2 : List Char, l1.length = l2.length →
    (∀ c ∈ l1, is_digit c) → (∀ c ∈ l2, is_digit c) →
    digitsVal l1 < digitsVal l2 → l1 < l2 := by
  induction l1 with
  | nil =>
    intro l2 hlen _ _ h
    cases l2 with
    | nil => simp [digitsVal] at h
    | cons c t => simp at hlen
  | cons c1 t1 ih =>
    intro l2 hlen hd1 hd2 h
    cases l2 with
    | nil => simp at hlen
    | cons c2 t2 =>
      have hlen2 : t1.length = t2.length := by simpa using hlen
      rcases lt_trichotomy c1 c2 with hlt | heq | hgt
      · exact List.Lex.rel hlt
      · subst heq
        refine List.Lex.cons
          (ih t2 hlen2 (fun x hx => hd1 x (List.mem_cons_of_mem c1 hx))
            (fun x hx => hd2 x (List.mem_cons_of_mem c1 hx)) ?_)
        simp only [digitsVal, hlen2] at h
        omega
      · exfalso
        have h1 := hd1 c1 (List.mem_cons_self c1 t1)
        have h2 := hd2 c2 (List.mem_cons_self c2 t2)
        have hn : c2.toNat < c1.toNat := hgt
        have hv2 : digitsVal t2 < 10 ^ t2.length :=
          digitsVal_lt_pow t2 (fun x hx => hd2 x (List.mem_cons_of_mem c2 hx))
        simp only [digitsVal, hlen2] at h
        have hdd : c2.toNat - 48 + 1 ≤ c1.toNat - 48 := by
          rcases h1 with ⟨h1a, _⟩
          rcases h2 with ⟨h2a, _⟩
          omega
        have hmul : (c2.toNat - 48 + 1) * 10 ^ t2.length ≤
            (c1.toNat - 48) * 10 ^ t2.length := Nat.mul_le_mul_right _ hdd
        have hexp : (c2.toNat - 48 + 1) * 10 ^ t2.length =
            (c2.toNat - 48) * 10 ^ t2.length + 10 ^ t2.length := by ring
        omega

theorem list_lt_append (l1 : List Char) :
    ∀ (l2 s1 s2 : List Char), l1.length = l2.length → l1 < l2 →
    l1 ++ s1 < l2 ++ s2 := by
  induction l1 with
  | nil =>
    intro l2 s1 s2 hlen h
    cases l2 with
    | nil => cases h
    | cons c t => simp at hlen
  | cons c1 t1 ih =>
    intro l2 s1 s2 hlen h
    cases l2 with
    | nil => simp at hlen
    | cons c2 t2 =>
      cases h with
      | cons htl => exact List.Lex.cons (ih t2 s1 s2 (by simpa using hlen) htl)
      | rel hab => exact List.Lex.rel hab

theorem list_lt_prefix (pre : List Char) (l1 l2 : List Char) (h : l1 < l2) :
    pre ++ l1 < pre ++ l2 := by
  induction pre with
  | nil => exact h
  | cons c t ih => exact List.Lex.cons ih

/-! ### Filename ordering and claim C3 -/

/-- The common shape of every artifact filename:
`{table}_{padded priority}_{suffix}.sql`. -/
def artifact_filename (tname : String) (w p : Nat) (suffix : String) : String :=
  tname ++ "_" ++ String.mk (priority_str w p) ++ "_" ++ suffix ++ ".sql"

theorem data_filename_eq (tname : String) (w p : Nat) (s : String) :
    data_filename tname w p s =
      artifact_filename tname w p (if s = "static" then "data" else s) := rfl

theorem natDecimal_zero : natDecimal 0 = ['0'] := by
  rw [natDecimal_eq, if_pos (by norm_num : (0:Nat) < 10),
    show decChar 0 = '0' from by decide]

theorem priority_str_zero (w : Nat) (hw : 0 < w) :
    priority_str w 0 = List.replicate w '0' := by
  unfold priority_str
  rw [natDecimal_zero]
  obtain ⟨w', rfl⟩ : ∃ w', w = w' + 1 := ⟨w - 1, by omega⟩
  rw [show w' + 1 - (['0'] : List Char).length = w' by simp]
  rw [← List.replicate_succ' w' '0']

theorem schema_filename_eq (tname : String) (w : Nat) (hw : 0 < w) :
    schema_filename tname w = artifact_filename tname w 0 "schema" := by
  unfold schema_filename artifact_filename
  apply String.ext
  simp only [String.data_append, priority_str_zero w hw]
  simp [List.append_assoc]

theorem priority_str_length (w p : Nat) (h : (natDecimal p).length ≤ w) :
    (priority_str w p).length = w := by
  unfold priority_str
  simp only [List.length_append, List.length_replicate]
  omega

theorem priority_str_digits (w p : Nat) : ∀ c ∈ priority_str w p, is_digit c := by
  intro c hc
  unfold priority_str at hc
  rcases List.mem_append.mp hc with hl | hr
  · rcases List.eq_of_mem_replicate hl with rfl
    exact ⟨by decide, by decide⟩
  · exact natDecimal_all_digits p c hr

theorem digitsVal_replicate_zero (m : Nat) (l : List Char) :
    digitsVal (List.replicate m '0' ++ l) = digitsVal l := by
  induction m with
  | zero => simp
  | succ m ih =>
    rw [List.replicate_succ, List.cons_append]
    simp only [digitsVal, ih]
    simp [show ('0' : Char).toNat - 48 = 0 from by decide]

theorem digitsVal_priority_str (w p : Nat) : digitsVal (priority_str w p) = p := by
  unfold priority_str
  rw [digitsVal_replicate_zero, digitsVal_natDecimal]

theorem priority_str_lt (w p q : Nat) (hpq : p < q)
    (hq : (natDecimal q).length ≤ w) :
    priority_str w p < priority_str w q := by
  have hp : (natDecimal p).length ≤ w :=
    le_trans (natDecimal_length_mono (le_of_lt hpq)) hq
  apply digit_lists_lt
  · rw [priority_str_length w p hp, priority_str_length w q hq]
  · exact priority_str_digits w p
  · exact priority_str_digits w q
  · rw [digitsVal_priority_str, digitsVal_priority_str]
    exact hpq

/-- Filenames with the same table name and padding width compare like their
priorities, whatever the suffixes are. -/
theorem artifact_filename_lt (tname : String) (w p1 p2 : Nat) (suf1 suf2 : String)
    (hp : p1 < p2) (h2 : (natDecimal p2).length ≤ w) :
    artifact_filename tname w p1 suf1 < artifact_filename tname w p2 suf2 := by
  have h1 : (natDecimal p1).length ≤ w :=
    le_trans (natDecimal_length_mono (le_of_lt hp)) h2
  rw [String.lt_iff_toList_lt]
  unfold artifact_filename
  simp only [String.toList, String.data_append, List.append_assoc]
  apply list_lt_prefix
  apply list_lt_prefix
  exact list_lt_append _ _ _ _
    (by rw [priority_str_length w p1 h1, priority_str_length w p2 h2])
    (priority_str_lt w p1 p2 hp h2)

theorem init_le_foldl_max (l : List Nat) (init : Nat) : init ≤ l.foldl max init := by
  induction l generalizing init with
  | nil => exact Nat.le_refl init
  | cons a t ih =>
    rw [List.foldl_cons]
    exact le_trans (le_max_left init a) (ih (max init a))

theorem mem_le_foldl_max (l : List Nat) (init : Nat) :
    ∀ x ∈ l, x ≤ l.foldl max init := by
  induction l generalizing init with
  | nil => intro x hx; simp at hx
  | cons a t ih =>
    intro x hx
    rw [List.foldl_cons]
    rcases List.mem_cons.mp hx with rfl | hmem
    · exact le_trans (le_max_right init x) (init_le_foldl_max t (max init x))
    · exact ih (max init a) x hmem

theorem max_priority_pos (t : DbTable) : 0 < (get_table_dump_info t).2 := by
  unfold get_table_dump_info
  cases hr : dump_info_pairs t with
  | nil => exact Nat.one_pos
  | cons p rest =>
    simp only
    have hp : p ∈ (get_table_dump_info t).1 := by
      unfold get_table_dump_info
      rw [hr]
      exact List.mem_cons_self p rest
    have := (dump_info_pairs_pos t p hp).1
    exact lt_of_lt_of_le this (init_le_foldl_max (rest.map Prod.fst) p.1)

theorem pair_le_max_priority (t : DbTable) :
    ∀ ps ∈ (get_table_dump_info t).1, ps.1 ≤ (get_table_dump_info t).2 := by
  intro ps hps
  unfold get_table_dump_info at hps ⊢
  cases hr : dump_info_pairs t with
  | nil =>
    rw [hr] at hps
    simp only at hps
    rcases List.mem_singleton.mp hps with rfl
    exact Nat.le_refl 1
  | cons p rest =>
    rw [hr] at hps
    simp only at hps ⊢
    rcases List.mem_cons.mp hps with rfl | hmem
    · exact init_le_foldl_max (rest.map Prod.fst) ps.1
    · exact mem_le_foldl_max (rest.map Prod.fst) p.1 ps.1
        (List.mem_map_of_mem Prod.fst hmem)

/-- Every artifact's priority is bounded by the table's maximum priority,
and its filename has the common `artifact_filename` shape at the table's
padding width. -/
theorem artifact_shape (t : DbTable) :
    ∀ a ∈ dump_table t, a.priority ≤ (get_table_dump_info t).2 ∧
      ∃ suf, a.filename = artifact_filename t.name (padding_width t) a.priority suf := by
  intro a ha
  unfold dump_table at ha
  rcases List.mem_cons.mp ha with rfl | hdata
  · refine ⟨Nat.zero_le _, "schema", ?_⟩
    exact schema_filename_eq t.name (padding_width t) (natDecimal_length_pos _)
  · obtain ⟨ps, hps, hmk⟩ := List.mem_filterMap.mp hdata
    by_cases he : (data_rows t ps.1 ps.2).isEmpty
    · rw [if_pos he] at hmk
      simp at hmk
    · rw [if_neg he] at hmk
      injection hmk with hmk
      subst hmk
      exact ⟨pair_le_max_priority t ps hps,
        (if ps.2 = "static" then "data" else ps.2), data_filename_eq t.name _ ps.1 ps.2⟩

/-- The concrete table of the specification's end-to-end scenario 3: two
persisted groups with priorities `3` (source `static`) and `12` (source
`vendor`). -/
def cex3_row_a : DbRow :=
  { key := "a", dump_priority := 3, source := some "static", vals := [SqlValue.text "a"] }

def cex3_row_b : DbRow :=
  { key := "b", dump_priority := 12, source := some "vendor", vals := [SqlValue.text "b"] }

def cex3_table : DbTable := { name := "resistors", rows := [cex3_row_a, cex3_row_b] }

/-- C3 as stated is false on the code in its concrete scenario: for the
max-priority-12 table the group with reserved source `static` is written to
`resistors_03_data.sql` — the reserved source collapses to the suffix
`data` — and no artifact named `resistors_03_static.sql` exists. -/
theorem C3_counterexample :
    (dump_table cex3_table).map (fun a => a.filename) =
      ["resistors_00_schema.sql", "resistors_03_data.sql", "resistors_12_vendor.sql"] ∧
    "resistors_03_static.sql" ∉ (dump_table cex3_table).map (fun a => a.filename) := by
  exact ⟨by decide, by decide⟩

/-- C3 (amended): the zero-padding width of the priority in artifact
filenames equals the digit count of the maximum priority across the table's
groups, every artifact's priority segment is padded to exactly that width,
and lexicographic filename ordering matches numeric priority ordering; in
particular the max-priority-12 table produces the two-digit-padded filenames
`..._00_schema.sql`, `..._03_data.sql` (the reserved source `static`
collapses to the `data` suffix, not `..._03_static.sql`) and
`..._12_vendor.sql`. -/
theorem C3_padding_matches_ordering :
    (∀ t : DbTable,
      padding_width t = (Nat.digits 10 (get_table_dump_info t).2).length) ∧
    (∀ t : DbTable, ∀ a ∈ dump_table t,
      (priority_str (padding_width t) a.priority).length = padding_width t) ∧
    (∀ t : DbTable, ∀ a1 ∈ dump_table t, ∀ a2 ∈ dump_table t,
      a1.priority < a2.priority → a1.filename < a2.filename) ∧
    (dump_table cex3_table).map (fun a => a.filename) =
      ["resistors_00_schema.sql", "resistors_03_data.sql", "resistors_12_vendor.sql"] := by
  have hb : ∀ t : DbTable, ∀ a ∈ dump_table t,
      (natDecimal a.priority).length ≤ padding_width t := by
    intro t a ha
    exact natDecimal_length_mono ((artifact_shape t a ha).1)
  refine ⟨?_, ?_, ?_, by decide⟩
  · intro t
    exact natDecimal_length_eq_digits _ (max_priority_pos t)
  · intro t a ha
    exact priority_str_length _ _ (hb t a ha)
  · intro t a1 h1 a2 h2 hp
    obtain ⟨suf1, hf1⟩ := (artifact_shape t a1 h1).2
    obtain ⟨suf2, hf2⟩ := (artifact_shape t a2 h2).2
    rw [hf1, hf2]
    exact artifact_filename_lt t.name (padding_width t) a1.priority a2.priority
      suf1 suf2 hp (hb t a2 h2)

/-- Witness for C3: the amended statement's general clauses evaluated on the
concrete scenario table. -/
theorem C3_padding_matches_ordering_witness :
    padding_width cex3_table = (Nat.digits 10 (get_table_dump_info cex3_table).2).length ∧
    ({ filename := "resistors_03_data.sql", priority := 3,
       rows := [cex3_row_a] } : Artifact).filename <
      ({ filename := "resistors_12_vendor.sql", priority := 12,
         rows := [cex3_row_b] } : Artifact).filename :=
  ⟨C3_padding_matches_ordering.1 cex3_table,
   C3_padding_matches_ordering.2.2.1 cex3_table
     { filename := "resistors_03_data.sql", priority := 3, rows := [cex3_row_a] }
     (by decide)
     { filename := "resistors_12_vendor.sql", priority := 12, rows := [cex3_row_b] }
     (by decide) (by decide)⟩

end TerraEda
